import Mathlib

/-!
superdns: the analyzer, the scan pipeline and the resolution client.

A shallow embedding of `pkg/analysis/analyzer.go`, `pkg/runner/runner.go`,
`pkg/output/formatter.go` and `pkg/dnsops/client.go`.

Conventions of the embedding.

* Go strings are modelled by `String` (valid UTF-8 text).  All string
  functions are written over `String.data`, the list of characters.
* A Go `map[string]V` is modelled by an association list read with
  `List.lookup`; a missing key reads as the zero value, as in Go.
* Library functions that the repository only calls (`strings.ToLower`,
  `idna.ToASCII`, the DNS exchange, the tabwriter) are parameters.
* The traversal order that Go picks for a `range` over a map is a parameter.
* The goroutines of `Run` are a transition system: one action is one step of
  one goroutine, and a schedule is an interleaving of such steps.
-/

namespace Superdns

/-! ## Strings -/

/-- Go `strings.HasSuffix(s, suffix)`. -/
def HasSuffix (s suffix : String) : Bool :=
  suffix.data.isSuffixOf s.data

/-- Go `strings.HasPrefix(s, pre)`. -/
def HasPrefix (s pre : String) : Bool :=
  pre.data.isPrefixOf s.data

/-- Go `strings.TrimSuffix(s, suffix)`: `s` without the trailing `suffix`,
or `s` itself when it does not end with `suffix`. -/
def TrimSuffix (s suffix : String) : String :=
  if HasSuffix s suffix then String.mk (s.data.take (s.data.length - suffix.data.length)) else s

/-- Go `unicode.IsSpace`: the code points with the White_Space property. -/
def isSpace (c : Char) : Bool :=
  let n := c.toNat
  (0x09 ≤ n && n ≤ 0x0D) || n == 0x20 || n == 0x85 || n == 0xA0 || n == 0x1680 ||
  (0x2000 ≤ n && n ≤ 0x200A) || n == 0x2028 || n == 0x2029 || n == 0x202F ||
  n == 0x205F || n == 0x3000

/-- Go `strings.TrimSpace(s)`: all leading and trailing white space removed. -/
def TrimSpace (s : String) : String :=
  String.mk ((s.data.dropWhile isSpace).reverse.dropWhile isSpace).reverse

/-- ASCII lower-casing, the restriction of Go `strings.ToLower` to ASCII text
(`strings.ToLower` maps `A`..`Z` to `a`..`z` and leaves every other ASCII
byte alone). Used where a concrete lower-casing function is needed. -/
def asciiLower (s : String) : String :=
  String.mk (s.data.map Char.toLower)

/-! ## Data model (`pkg/dnsops/client.go`, `pkg/analysis/analyzer.go`) -/

/-- RecordResult holds the result of a single DNS record query (`Typ` is the
Go field `Type`). -/
structure RecordResult where
  Typ : String := ""
  Values : List String := []
  TTL : Nat := 0
  Status : String := ""
  Error : String := ""
deriving DecidableEq, Repr

/-- ResolutionResult holds the aggregate results for a domain. -/
structure ResolutionResult where
  Domain : String := ""
  Records : List (String × RecordResult) := []
  CNameChain : List String := []
  IsDangling : Bool := false
  HasWildcard : Bool := false
  Nameservers : List String := []
deriving DecidableEq, Repr

/-- Go `m[key]` on a `map[string]RecordResult`: the zero value when absent. -/
def getRecord (m : List (String × RecordResult)) (key : String) : RecordResult :=
  (m.lookup key).getD {}

/-- Analysis holds the security analysis results. -/
structure Analysis where
  IsDangling : Bool := false
  DanglingCNAME : String := ""
  CloudProvider : String := ""
  RiskLevel : String := ""
  Notes : List String := []
deriving DecidableEq, Repr

/-! ## Analyzer (`pkg/analysis/analyzer.go`) -/

/-- The `providers` map literal of `detectProvider`, in source order. -/
def providers : List (String × String) :=
  [ ("s3.amazonaws.com", "AWS S3"),
    ("elasticbeanstalk.com", "AWS Elastic Beanstalk"),
    ("azurewebsites.net", "Azure App Service"),
    ("cloudapp.net", "Azure Cloud App"),
    ("herokuapp.com", "Heroku"),
    ("github.io", "GitHub Pages"),
    ("wordpress.com", "WordPress"),
    ("shopify.com", "Shopify"),
    ("zendesk.com", "Zendesk"),
    ("fastly.net", "Fastly"),
    ("akamaiedge.net", "Akamai") ]

/-- The `for key, name := range providers` loop of `detectProvider`,
over the entries in the order `order`. -/
def detectLoop (cname : String) : List (String × String) → String
  | [] => ""
  | (key, name) :: rest => if HasSuffix cname key then name else detectLoop cname rest

/-- `detectProvider(cname)`. `lower` is `strings.ToLower`; `order` is the
order in which the `range` statement visits the `providers` map (a
permutation of `providers`, chosen by the Go runtime at each call). -/
def detectProvider (lower : String → String) (order : List (String × String))
    (cname : String) : String :=
  detectLoop (lower cname) order

/-- `Analyze(res)`: processes the raw DNS results to identify security
issues. `lower` and `order` are handed to `detectProvider`. -/
def Analyze (lower : String → String) (order : List (String × String))
    (res : ResolutionResult) : Analysis :=
  let analysis : Analysis := { RiskLevel := "LOW", Notes := [] }
  -- 1. Check for Dangling CNAME
  let analysis :=
    match res.Records.lookup "CNAME" with
    | some cnameRes =>
      match cnameRes.Values with
      | target :: _ =>
        let analysis := { analysis with Notes := analysis.Notes ++ ["CNAME target: " ++ target] }
        let provider := detectProvider lower order target
        let analysis :=
          if provider ≠ "" then
            { analysis with
              CloudProvider := provider
              Notes := analysis.Notes ++ ["SaaS Provider: " ++ provider] }
          else analysis
        let aRes := getRecord res.Records "A"
        if aRes.Status = "NXDOMAIN" ∨ (aRes.Status = "SERVFAIL" ∧ aRes.Values.length = 0) then
          { analysis with
            IsDangling := true
            DanglingCNAME := target
            RiskLevel := "HIGH"
            Notes := analysis.Notes ++ ["Potential Dangling CNAME"] }
        else analysis
      | [] => analysis
    | none => analysis
  -- 2. Misconfigured NS
  match res.Records.lookup "NS" with
  | some nsRes =>
    if 0 < nsRes.Values.length then
      if (getRecord res.Records "SOA").Status = "NXDOMAIN" then
        { analysis with
          Notes := analysis.Notes ++ ["NS records present but SOA missing (Anomalous)"] }
      else analysis
    else analysis
  | none => analysis

/-- The CNAME values of a result: `res.Records["CNAME"].Values`. -/
def cnameValues (res : ResolutionResult) : List String :=
  (getRecord res.Records "CNAME").Values

/-- The A record of a result: `res.Records["A"]`. -/
def aRecord (res : ResolutionResult) : RecordResult :=
  getRecord res.Records "A"

/-! ## Scan pipeline (`pkg/runner/runner.go`) -/

/-- The fields of `runner.Options` that the pipeline logic reads. -/
structure Options where
  Concurrency : Int := 0
  JSONOutput : Bool := false
  OnlyDangling : Bool := false
deriving DecidableEq, Repr

/-- `runner.Result`: the unit carried on the result channel. -/
structure Result where
  Resolution : ResolutionResult
  Analysis : Analysis
deriving DecidableEq, Repr

/-- The `Resolver` interface as `processDomain` uses it: the Go pair
`(res, err)` that `GetRecords(ctx, name)` returns for a name (`none` is
`nil`). A resolver answers as a function of the name asked, as the mock
resolvers of the tests do. -/
abbrev Resolver := String → Option ResolutionResult × Option String

/-- What one call of `processDomain` does. -/
inductive DomainOutcome where
  /-- `resChan <- Result{...}`. -/
  | emitted (r : Result)
  /-- The diagnostic written to standard error before the early `return`. -/
  | skipped (diag : String)
  /-- A nil `res` with a nil `err` is dereferenced. -/
  | panicked
deriving DecidableEq, Repr

/-- The wildcard test of `processDomain` on the probe's result `wRes`. -/
def probeHit (wRes : Option ResolutionResult) : Bool :=
  match wRes with
  | some w =>
    match w.Records.lookup "A" with
    | some a => a.Status == "NOERROR" && decide (0 < a.Values.length)
    | none => false
  | none => false

/-- The probe name `fmt.Sprintf("wildcard-%d.%s", rand.Intn(99999), domain)`;
`n` is the number drawn. -/
def randName (n : Nat) (domain : String) : String :=
  "wildcard-" ++ toString n ++ "." ++ domain

/-- `processDomain(domain, client, resChan)`; `n` is the number drawn by
`rand.Intn(99999)`. -/
def processDomain (lower : String → String) (order : List (String × String))
    (client : Resolver) (n : Nat) (domain : String) : DomainOutcome :=
  match client domain with
  | (_, some err) => .skipped ("[!] Error resolving " ++ domain ++ ": " ++ err ++ "\n")
  | (res, none) =>
    let wRes := (client (randName n domain)).1
    match res with
    | none => .panicked
    | some res =>
      let res := if probeHit wRes then { res with HasWildcard := true } else res
      let an := Analyze lower order res
      .emitted { Resolution := res, Analysis := an }

/-- The input loop of `Run` over the lines the scanner yields; `seen` is the
set of names already sent. Returns the names sent on `workChan`, in order. -/
def feedLoop : List String → List String → List String
  | [], _ => []
  | text :: rest, seen =>
    let line := TrimSpace text
    if line = "" then feedLoop rest seen
    else
      let line := TrimSuffix line "."
      if seen.contains line then feedLoop rest seen
      else line :: feedLoop rest (line :: seen)

/-- The names `Run` sends on `workChan` for the input `lines`. -/
def workQueue (lines : List String) : List String :=
  feedLoop lines []

/-- The `Result` a worker puts on `resChan` for a name, if any. -/
def emittedResult (lower : String → String) (order : String → List (String × String))
    (client : Resolver) (rnd : String → Nat) (domain : String) : Option Result :=
  match processDomain lower (order domain) client (rnd domain) domain with
  | .emitted r => some r
  | _ => none

/-- The results the workers put on `resChan`, listed in work-queue order.
`rnd d` is the number drawn for `d` and `order d` the traversal order of the
provider table in the analysis of `d`. -/
def emittedResults (lower : String → String) (order : String → List (String × String))
    (client : Resolver) (rnd : String → Nat) (lines : List String) : List Result :=
  (workQueue lines).filterMap (emittedResult lower order client rnd)

/-! ## Presentation (`pkg/output/formatter.go`) -/

/-- `output.ScanResult`. -/
structure ScanResult where
  Resolution : ResolutionResult
  Analysis : Analysis
deriving DecidableEq, Repr

/-- One write to the output writer `w`. -/
inductive Fragment where
  /-- `"▶ Domain: %s\n"`. -/
  | domain (d : String)
  /-- What `tw.Flush()` writes; `rows` are the lines printed into the tabwriter. -/
  | table (rows : List String)
  /-- `"  [!] VULNERABILITY: Potential Dangling CNAME detected pointing to %s\n"`. -/
  | vulnerability (cname : String)
  /-- `"  [*] Provider: %s\n"`. -/
  | provider (p : String)
  /-- `"  [*] Wildcard: Enabled\n"`. -/
  | wildcard
  /-- `strings.Repeat("-", 40)` and a newline. -/
  | rule
  /-- The JSON document `enc.Encode(res)` writes. -/
  | json (res : ScanResult)
deriving DecidableEq, Repr

/-- The text of a fragment. `tabwriter` is what the `text/tabwriter` writer
flushes for the text printed into it and `encode` the JSON encoder. -/
def Fragment.text (tabwriter : String → String) (encode : ScanResult → String) :
    Fragment → String
  | .domain d => "▶ Domain: " ++ d ++ "\n"
  | .table rows => tabwriter (String.join rows)
  | .vulnerability cname =>
    "  [!] VULNERABILITY: Potential Dangling CNAME detected pointing to " ++ cname ++ "\n"
  | .provider p => "  [*] Provider: " ++ p ++ "\n"
  | .wildcard => "  [*] Wildcard: Enabled\n"
  | .rule => String.mk (List.replicate 40 (Char.ofNat 45)) ++ "\n"
  | .json res => encode res

/-- The body of the `range res.Resolution.Records` loop of `WriteTable`: the
line printed into the tabwriter for one record, if any. -/
def tableRow (t : String) (r : RecordResult) : Option String :=
  if 0 < r.Values.length then
    some ("  " ++ t ++ "\t" ++ String.intercalate ", " r.Values ++ "\t(TTL: " ++ toString r.TTL ++ ")\n")
  else if r.Status ≠ "NOERROR" ∧ r.Status ≠ "" then
    some ("  " ++ t ++ "\t[" ++ r.Status ++ "]\n")
  else none

/-- `WriteTable(w, res)`: the writes made to `w`, in order. The records are
visited in the order of the association list. -/
def WriteTable (res : ScanResult) : List Fragment :=
  [.domain res.Resolution.Domain] ++
  (if 0 < res.Resolution.Records.length then
    [.table (res.Resolution.Records.filterMap (fun p => tableRow p.1 p.2))] else []) ++
  (if res.Analysis.IsDangling then [.vulnerability res.Analysis.DanglingCNAME] else []) ++
  (if res.Analysis.CloudProvider ≠ "" then [.provider res.Analysis.CloudProvider] else []) ++
  (if res.Resolution.HasWildcard then [.wildcard] else []) ++
  [.rule]

/-- `WriteJSON(w, res)`: the writes made to `w`. -/
def WriteJSON (res : ScanResult) : List Fragment :=
  [.json res]

/-- The statement `scanRes := output.ScanResult{...}` of `ProcessOutput`. -/
def scanResult (res : Result) : ScanResult :=
  { Resolution := res.Resolution, Analysis := res.Analysis }

/-- `ProcessOutput(resChan, opts)` over the stream of results received: for
every outcome rendered, in order, the outcome and the writes made for it. -/
def ProcessOutput (opts : Options) : List Result → List (ScanResult × List Fragment)
  | [] => []
  | res :: rest =>
    if opts.OnlyDangling && !res.Analysis.IsDangling then ProcessOutput opts rest
    else
      let scanRes := scanResult res
      (if opts.JSONOutput then (scanRes, WriteJSON scanRes) else (scanRes, WriteTable scanRes))
        :: ProcessOutput opts rest

/-- Where a worker goroutine stands. -/
inductive Worker where
  /-- Blocked in `for domain := range workChan`. -/
  | idle
  /-- Inside `processDomain(domain, client, resChan)`, before its send. -/
  | busy (domain : String)
  /-- Blocked in `resChan <- Result{...}`. -/
  | sending (r : Result)
  /-- Out of the loop, `wg.Done()` run. -/
  | exited
deriving DecidableEq, Repr

/-- Where the main goroutine stands. -/
inductive MainPhase where
  /-- In the `for scanner.Scan()` loop. -/
  | reading
  /-- Past `close(workChan)`, in `wg.Wait()`. -/
  | waiting
  /-- Past `close(resChan)`, in `<-doneChan`. -/
  | draining
  /-- `Run` has returned. -/
  | returned
deriving DecidableEq, Repr

/-- The steps a worker in this position still has to take, counting the
receive of its result by the consumer. -/
def Worker.weight : Worker → Nat
  | .idle => 1
  | .busy _ => 4
  | .sending _ => 3
  | .exited => 0

/-- The steps the main goroutine still has to take after the scanner loop. -/
def MainPhase.weight : MainPhase → Nat
  | .reading => 3
  | .waiting => 2
  | .draining => 1
  | .returned => 0

/-- The answer records `GetRecords` decodes (the type switch), with the fields
it prints; `other` is any record type outside the switch. `ip` is the text
`v.A.String()` or `v.AAAA.String()`. -/
inductive RData where
  | A (ip : String)
  | AAAA (ip : String)
  | CNAME (Target : String)
  | NS (Ns : String)
  | MX (Preference : Nat) (Mx : String)
  | TXT (Txt : List String)
  | SOA (Ns Mbox : String) (Serial : Nat)
  | SRV (Priority Weight Port : Nat) (Target : String)
  | CAA (Flag : Nat) (Tag Value : String)
  | PTR (Ptr : String)
  | other
deriving DecidableEq, Repr

/-- A resource record of the answer section: `ans.Header().Ttl` and the data. -/
structure RR where
  Ttl : Nat
  data : RData
deriving DecidableEq, Repr

/-- The fields of `dns.Msg` that `GetRecords` reads. -/
structure Msg where
  Rcode : Int
  Answer : List RR
deriving DecidableEq, Repr

/-- The result of one exchange attempt: the response, or the error text. -/
inductive Attempt where
  | response (r : Msg)
  | failed (e : String)
deriving DecidableEq, Repr

/-- Client handles DNS queries. The transport `*dns.Client` is part of `Net`. -/
structure Client where
  ResolverAddr : String
  Retries : Int
deriving DecidableEq, Repr

/-- What the client calls outside the repository, over a state `σ` of the
outside world (network, clock, context).
* `toASCII` is `idna.ToASCII`;
* `exchange s name qtype addr` is `c.Client.ExchangeContext(ctx, m, addr)` for
  the question `m` built from `name` and `qtype`, run in state `s`;
* `sleep` is `time.Sleep(50 * time.Millisecond)`;
* `ctxErr s` is `ctx.Err()`: `some` error text once `ctx.Done()` is closed;
* `rcodeToString` is the table `dns.RcodeToString` (`""` for a missing key). -/
structure Net (σ : Type) where
  toASCII : String → Except String String
  exchange : σ → String → Nat → String → Attempt × σ
  sleep : σ → σ
  ctxErr : σ → Option String
  rcodeToString : Int → String

/-- `dns.TypeA` and the other record type codes. -/
def TypeA : Nat := 1
def TypeNS : Nat := 2
def TypeCNAME : Nat := 5
def TypeSOA : Nat := 6
def TypeMX : Nat := 15
def TypeTXT : Nat := 16
def TypeAAAA : Nat := 28
def TypeSRV : Nat := 33
def TypeCAA : Nat := 257

/-- The table `dns.TypeToString` on the types `GetRecords` queries (`""` for
a missing key). -/
def TypeToString (t : Nat) : String :=
  if t = 1 then "A" else if t = 2 then "NS" else if t = 5 then "CNAME"
  else if t = 6 then "SOA" else if t = 15 then "MX" else if t = 16 then "TXT"
  else if t = 28 then "AAAA" else if t = 33 then "SRV" else if t = 257 then "CAA"
  else ""

/-- `dns.RcodeSuccess`. -/
def RcodeSuccess : Int := 0

/-- What `Query` returns, `(msg, err)`, with the state it leaves and, as a
ghost field, the results of the exchange attempts it made, in order. -/
structure QueryResult (σ : Type) where
  msg : Option Msg
  err : Option String
  attempts : List Attempt
  state : σ

/-- The retry loop of `Query`: `n` iterations remain, `err` is the current
value of the variable `err`, `done` the attempts made so far. -/
def queryLoop {σ : Type} (net : Net σ) (c : Client) (name : String) (qtype : Nat) :
    Nat → σ → Option String → List Attempt → QueryResult σ
  | 0, s, err, done => { msg := none, err := err, attempts := done, state := s }
  | n + 1, s, _, done =>
    match net.exchange s name qtype c.ResolverAddr with
    | (.response r, s1) =>
      { msg := some r, err := none, attempts := done ++ [.response r], state := s1 }
    | (.failed e, s1) =>
      queryLoop net c name qtype n (net.sleep s1) (some e) (done ++ [.failed e])

/-- `c.Query(ctx, domain, qtype)` run in state `s`. The loop
`for i := 0; i <= c.Retries; i++` makes `c.Retries + 1` iterations, none when
`c.Retries` is negative (`c.Retries` is taken below the largest `int`, where
the loop counter cannot wrap around). -/
def Query {σ : Type} (net : Net σ) (c : Client) (domain : String) (qtype : Nat) (s : σ) :
    QueryResult σ :=
  match net.toASCII domain with
  | .error e => { msg := none, err := some e, attempts := [], state := s }
  | .ok asciiDomain => queryLoop net c asciiDomain qtype (c.Retries + 1).toNat s none []

/-- The type switch of `GetRecords`: the value printed for an answer. -/
def answerValue : RData → String
  | .A ip => ip
  | .AAAA ip => ip
  | .CNAME target => target
  | .NS ns => ns
  | .MX pref mx => toString pref ++ " " ++ mx
  | .TXT txt => String.intercalate " " txt
  | .SOA ns mbox serial => ns ++ " " ++ mbox ++ " " ++ toString serial
  | .SRV priority weight port target =>
    toString priority ++ " " ++ toString weight ++ " " ++ toString port ++ " " ++ target
  | .CAA flag tag value => toString flag ++ " " ++ tag ++ " " ++ value
  | .PTR ptr => ptr
  | .other => ""

/-- The body of the `range msg.Answer` loop of `GetRecords`. -/
def decodeAnswer (recRes : RecordResult) (ans : RR) : RecordResult :=
  let val := answerValue ans.data
  let recRes := { recRes with TTL := ans.Ttl }
  if val ≠ "" then { recRes with Values := recRes.Values ++ [val] } else recRes

/-- The `RecordResult` that `GetRecords` builds from what `Query` returned for
the type named `mt`; `none` when `Query` returned neither a message nor an
error and `msg.Rcode` dereferences nil. -/
def recordOf {σ : Type} (net : Net σ) (mt : String) (q : QueryResult σ) : Option RecordResult :=
  let recRes : RecordResult := { Typ := mt }
  match q.err with
  | some e => some { recRes with Error := e, Status := "ERROR" }
  | none =>
    match q.msg with
    | none => none
    | some msg =>
      let recRes := { recRes with Status := net.rcodeToString msg.Rcode }
      if msg.Rcode = RcodeSuccess then some (msg.Answer.foldl decodeAnswer recRes)
      else some recRes

/-- Go `m[key] = v` on a `map[string]RecordResult`. -/
def setRecord (m : List (String × RecordResult)) (key : String) (v : RecordResult) :
    List (String × RecordResult) :=
  match m with
  | [] => [(key, v)]
  | (k, w) :: rest => if k = key then (key, v) :: rest else (k, w) :: setRecord rest key v

/-- The record types `GetRecords` queries, in order. -/
def types : List Nat :=
  [TypeA, TypeAAAA, TypeCNAME, TypeNS, TypeMX, TypeTXT, TypeSOA] ++ [TypeSRV, TypeCAA]

/-- How a call of `GetRecords` ends. -/
inductive GetOutcome where
  /-- `return result, nil`. -/
  | result (res : ResolutionResult)
  /-- `return nil, ctx.Err()`. -/
  | error (e : String)
  /-- A nil message is dereferenced. -/
  | panicked
deriving DecidableEq, Repr

/-- What `GetRecords` does: how it ends, the state it leaves and, as a ghost
field, the exchange attempts made, in order. -/
structure GetResult (σ : Type) where
  outcome : GetOutcome
  attempts : List Attempt
  state : σ

/-- The `for _, t := range types` loop of `GetRecords` over the types still
to query. -/
def recordsLoop {σ : Type} (net : Net σ) (c : Client) (domain : String) :
    List Nat → ResolutionResult → List Attempt → σ → GetResult σ
  | [], result, done, s => { outcome := .result result, attempts := done, state := s }
  | t :: rest, result, done, s =>
    match net.ctxErr s with
    | some e => { outcome := .error e, attempts := done, state := s }
    | none =>
      let mt := TypeToString t
      let q := Query net c domain t s
      match recordOf net mt q with
      | none => { outcome := .panicked, attempts := done ++ q.attempts, state := q.state }
      | some recRes =>
        recordsLoop net c domain rest
          { result with Records := setRecord result.Records mt recRes }
          (done ++ q.attempts) q.state

/-- `c.GetRecords(ctx, domain)` run in state `s`. -/
def GetRecords {σ : Type} (net : Net σ) (c : Client) (domain : String) (s : σ) : GetResult σ :=
  recordsLoop net c domain types { Domain := domain, Records := [] } [] s

/-- The state in which `GetRecords`, started in `s`, reaches the query of the
type that follows the types `pre`, when none of the earlier steps returned. -/
def stateAfter {σ : Type} (net : Net σ) (c : Client) (domain : String) :
    List Nat → σ → σ
  | [], s => s
  | t :: rest, s => stateAfter net c domain rest (Query net c domain t s).state

/-- The exchange attempts `GetRecords`, started in `s`, makes for the types
`pre`, when none of these steps returns. -/
def attemptsBefore {σ : Type} (net : Net σ) (c : Client) (domain : String) :
    List Nat → σ → List Attempt
  | [], _ => []
  | t :: rest, s =>
    (Query net c domain t s).attempts ++
      attemptsBefore net c domain rest (Query net c domain t s).state

/-- `GetRecords` returned a result. -/
def GetOutcome.isResult : GetOutcome → Bool
  | .result _ => true
  | _ => false

/-- The client as the `Resolver` of `processDomain`, every call of
`GetRecords` run from the state `s`: `return result, nil` is the pair
`(result, nil)`, `return nil, ctx.Err()` the pair `(nil, err)`. A panic inside
`GetRecords` unwinds through `processDomain`; it is passed on as the pair
`(nil, nil)`, on which the model of `processDomain` panics. -/
def clientResolver {σ : Type} (net : Net σ) (c : Client) (s : σ) : Resolver := fun domain =>
  match (GetRecords net c domain s).outcome with
  | .result res => (some res, none)
  | .error e => (none, some e)
  | .panicked => (none, none)

/-! ## Specification-side notions -/

/-- The name an input line stands for, in the words of the specification: the
line with surrounding white space trimmed and the trailing root dot stripped;
a blank line stands for no name. -/
def normalizedName (text : String) : Option String :=
  if TrimSpace text = "" then none else some (TrimSuffix (TrimSpace text) ".")

/-- The names the input lines stand for, in arrival order, repetitions kept. -/
def inputNames (lines : List String) : List String :=
  lines.filterMap normalizedName

/-- The rendering of an outcome by `ProcessOutput`: the JSON document or the
text block, as `opts.JSONOutput` says. -/
def renderOne (opts : Options) (res : Result) : ScanResult × List Fragment :=
  (scanResult res,
    if opts.JSONOutput then WriteJSON (scanResult res) else WriteTable (scanResult res))

/-- The options of `TestRun_Filtering`. -/
def filterOpts : Options :=
  { Concurrency := 1, OnlyDangling := true }

/-- The `ResolveFunc` of the mock resolver of `TestRun_Filtering`. -/
def filterMock : Resolver := fun domain =>
  let res : ResolutionResult := { Domain := domain, Records := [] }
  if HasPrefix domain "wildcard-" then (some res, none)
  else if domain = "dangler.com" then
    let recs := setRecord res.Records "CNAME" { Values := ["dead.com"], Status := "NOERROR" }
    (some { res with Records := setRecord recs "A" { Status := "NXDOMAIN" } }, none)
  else
    (some { res with Records := setRecord res.Records "A" { Values := ["1.1.1.1"], Status := "NOERROR" } },
      none)

/-- The result stream of `TestRun_Filtering` (one worker, input
`foo.com`, `dangler.com`), with 7 as the number drawn for the probes. -/
def filterStream : List Result :=
  emittedResults asciiLower (fun _ => providers) filterMock (fun _ => 7) ["foo.com", "dangler.com"]

/-- A resolver that answers every name, probes included, with one address. -/
def wildcardMock : Resolver := fun domain =>
  (some { Domain := domain,
          Records := [("A", { Values := ["9.9.9.9"], Status := "NOERROR" })] }, none)

/-- A transport, over a counter of exchanges as state, in which every query
of type A times out and every other query is answered NOERROR with no
record; the context is never cancelled. -/
def timeoutNet : Net Nat where
  toASCII := fun d => .ok d
  exchange := fun s _ qtype _ =>
    if qtype = TypeA then (.failed "i/o timeout", s + 1)
    else (.response { Rcode := 0, Answer := [] }, s + 1)
  sleep := fun s => s
  ctxErr := fun _ => none
  rcodeToString := fun r => if r = 0 then "NOERROR" else ""

/-- The client `NewClient(addr, timeout, 2)` that `Run` builds. -/
def runClient : Client :=
  { ResolverAddr := "8.8.8.8:53", Retries := 2 }

/-- A transport whose name conversion `idna.ToASCII` rejects the name
`xn--é.example` and that answers every query NOERROR with no record; the
context is never cancelled. -/
def badNameNet : Net Nat where
  toASCII := fun d => if d = "xn--é.example" then .error "idna: invalid label" else .ok d
  exchange := fun s _ _ _ => (.response { Rcode := 0, Answer := [] }, s + 1)
  sleep := fun s => s
  ctxErr := fun _ => none
  rcodeToString := fun r => if r = 0 then "NOERROR" else ""

/-- The result `GetRecords` builds for `xn--é.example` over `badNameNet`. -/
def badNameRes : ResolutionResult :=
  { Domain := "xn--é.example",
    Records := types.map (fun t =>
      (TypeToString t,
        { Typ := TypeToString t, Status := "ERROR", Error := "idna: invalid label" })) }

/-- A transport, over a counter of exchanges as state, whose context is
cancelled while the first exchange is under way: the context is live in state
0 and cancelled from state 1 on, and every exchange fails. -/
def cancelNet : Net Nat where
  toASCII := fun d => .ok d
  exchange := fun s _ _ _ =>
    (.failed (if s = 0 then "i/o timeout" else "context canceled"), s + 1)
  sleep := fun s => s
  ctxErr := fun s => if 0 < s then some "context canceled" else none
  rcodeToString := fun r => if r = 0 then "NOERROR" else ""

/-- A transport, over a counter of exchanges as state, that answers every
query NOERROR with no record and whose context is cancelled while the ninth
exchange, the one for the last record type, is under way. -/
def lateCancelNet : Net Nat where
  toASCII := fun d => .ok d
  exchange := fun s _ _ _ => (.response { Rcode := 0, Answer := [] }, s + 1)
  sleep := fun s => s
  ctxErr := fun s => if 9 ≤ s then some "context deadline exceeded" else none
  rcodeToString := fun r => if r = 0 then "NOERROR" else ""

/-- The result `danglingRes` of `TestAnalyze_DanglingCNAME`. -/
def danglingRes : ResolutionResult :=
  { Domain := "danger.example.com",
    Records :=
      [("CNAME", { Typ := "CNAME", Values := ["missing.example.com"], Status := "NOERROR" }),
       ("A", { Typ := "A", Values := [], Status := "NXDOMAIN" })] }

/-- The result of `TestAnalyze_ProviderDetection`, with the CNAME target
written in mixed case. -/
def shopRes : ResolutionResult :=
  { Domain := "shop.example.com",
    Records := [("CNAME", { Typ := "CNAME", Values := ["Shops.MyShopify.COM"], Status := "NOERROR" })] }

/-- The result of a domain with NS records whose SOA query answers NXDOMAIN. -/
def lameRes : ResolutionResult :=
  { Domain := "lame.example.com",
    Records :=
      [("NS", { Typ := "NS", Values := ["ns1.example.net."], Status := "NOERROR" }),
       ("SOA", { Typ := "SOA", Values := [], Status := "NXDOMAIN" })] }

/-- A CNAME result as the resolution client stores it: `v.Target` is the
fully-qualified target, with the trailing root dot. -/
def fqdnShopRes : ResolutionResult :=
  { Domain := "shop.example.com",
    Records := [("CNAME", { Typ := "CNAME", Values := ["shops.myshopify.com."], Status := "NOERROR" })] }

/-- The result with the NS and SOA entries removed from its records. -/
def withoutNsSoa (res : ResolutionResult) : ResolutionResult :=
  { res with Records := res.Records.filter (fun p => p.1 ≠ "NS" ∧ p.1 ≠ "SOA") }

/-! ## Theorems: analyzer -/

theorem hasSuffix_iff (s k : String) : HasSuffix s k = true ↔ k.data <:+ s.data := by
  unfold HasSuffix
  exact List.isSuffixOf_iff_suffix

theorem lookup_of_values_ne_nil (m : List (String × RecordResult)) (key : String)
    (h : (getRecord m key).Values ≠ []) : m.lookup key = some (getRecord m key) := by
  unfold getRecord at h ⊢
  cases hl : m.lookup key with
  | none => simp [hl] at h
  | some r => simp

theorem analyze_cname_none (lower : String → String) (order : List (String × String))
    (res : ResolutionResult) (h : cnameValues res = []) :
    (Analyze lower order res).IsDangling = false ∧
    (Analyze lower order res).DanglingCNAME = "" ∧
    (Analyze lower order res).CloudProvider = "" ∧
    (Analyze lower order res).RiskLevel = "LOW" := by
  unfold cnameValues getRecord at h
  unfold Analyze
  cases hl : res.Records.lookup "CNAME" with
  | none => simp only []; split <;> (try split) <;> (try split) <;> simp
  | some r =>
    have hv : r.Values = [] := by simpa [hl] using h
    simp only [hv]; split <;> (try split) <;> (try split) <;> simp

/-- The analysis fields that the CNAME check of `Analyze` sets, when the first
CNAME value is `target`. -/
theorem analyze_cname_some (lower : String → String) (order : List (String × String))
    (res : ResolutionResult) (target : String) (h : (cnameValues res).head? = some target) :
    ((Analyze lower order res).IsDangling =
      decide ((aRecord res).Status = "NXDOMAIN" ∨
        ((aRecord res).Status = "SERVFAIL" ∧ (aRecord res).Values.length = 0))) ∧
    ((Analyze lower order res).DanglingCNAME =
      if (aRecord res).Status = "NXDOMAIN" ∨
        ((aRecord res).Status = "SERVFAIL" ∧ (aRecord res).Values.length = 0) then target else "") ∧
    (Analyze lower order res).CloudProvider = detectProvider lower order target ∧
    ((Analyze lower order res).RiskLevel =
      if (aRecord res).Status = "NXDOMAIN" ∨
        ((aRecord res).Status = "SERVFAIL" ∧ (aRecord res).Values.length = 0) then "HIGH" else "LOW") := by
  have hne : (getRecord res.Records "CNAME").Values ≠ [] := by
    intro h0
    simp [cnameValues, h0] at h
  have hl := lookup_of_values_ne_nil res.Records "CNAME" hne
  cases hv : (getRecord res.Records "CNAME").Values with
  | nil => exact absurd hv hne
  | cons t rest =>
    have ht : t = target := by simpa [cnameValues, hv] using h
    subst ht
    unfold Analyze aRecord
    simp only [hl, hv]
    by_cases hp : detectProvider lower order t = "" <;>
    by_cases hd : (getRecord res.Records "A").Status = "NXDOMAIN" ∨
        ((getRecord res.Records "A").Status = "SERVFAIL" ∧
          (getRecord res.Records "A").Values.length = 0) <;>
    simp only [hp, hd, ne_eq, not_true_eq_false, not_false_eq_true, if_true, if_false] <;>
    (split <;> (try split) <;> (try split) <;> simp [hp])

/-- Claim C1. When the CNAME record has at least one value, the first being
`target`, and the A record has status NXDOMAIN, `Analyze` returns an analysis
that is dangling, of HIGH risk, whose dangling CNAME is `target`. -/
theorem analyze_dangling_nxdomain (lower : String → String) (order : List (String × String))
    (res : ResolutionResult) (target : String)
    (hc : (cnameValues res).head? = some target) (ha : (aRecord res).Status = "NXDOMAIN") :
    (Analyze lower order res).IsDangling = true ∧
    (Analyze lower order res).RiskLevel = "HIGH" ∧
    (Analyze lower order res).DanglingCNAME = target := by
  obtain ⟨h1, h2, _, h4⟩ := analyze_cname_some lower order res target hc
  simp [h1, h2, h4, ha]

theorem analyze_dangling_nxdomain_witness :
    (cnameValues danglingRes).head? = some "missing.example.com" ∧
    (aRecord danglingRes).Status = "NXDOMAIN" ∧
    (Analyze asciiLower providers danglingRes).IsDangling = true ∧
    (Analyze asciiLower providers danglingRes).RiskLevel = "HIGH" ∧
    (Analyze asciiLower providers danglingRes).DanglingCNAME = "missing.example.com" :=
  ⟨by decide, by decide,
    analyze_dangling_nxdomain asciiLower providers danglingRes "missing.example.com"
      (by decide) (by decide)⟩

/-- Claim C2. `Analyze` sets `IsDangling` exactly when the CNAME record has a
value and the A record has status NXDOMAIN, or SERVFAIL with no value; in
every other case, among them a result with no A entry, `IsDangling` is false
and `DanglingCNAME` is empty. -/
theorem analyze_dangling_iff (lower : String → String) (order : List (String × String))
    (res : ResolutionResult) :
    ((Analyze lower order res).IsDangling = true ↔
      cnameValues res ≠ [] ∧
      ((aRecord res).Status = "NXDOMAIN" ∨
        ((aRecord res).Status = "SERVFAIL" ∧ (aRecord res).Values = []))) ∧
    ((Analyze lower order res).IsDangling = false →
      (Analyze lower order res).DanglingCNAME = "") ∧
    (res.Records.lookup "A" = none → (Analyze lower order res).IsDangling = false) := by
  have key : ((Analyze lower order res).IsDangling = true ↔
      cnameValues res ≠ [] ∧
      ((aRecord res).Status = "NXDOMAIN" ∨
        ((aRecord res).Status = "SERVFAIL" ∧ (aRecord res).Values = []))) ∧
    ((Analyze lower order res).IsDangling = false →
      (Analyze lower order res).DanglingCNAME = "") := by
    cases hv : cnameValues res with
    | nil =>
      obtain ⟨h1, h2, _, _⟩ := analyze_cname_none lower order res hv
      simp [h1, h2]
    | cons t rest =>
      obtain ⟨h1, h2, _, _⟩ := analyze_cname_some lower order res t (by simp [hv])
      rw [h1, h2]
      simp only [List.length_eq_zero, decide_eq_true_eq, decide_eq_false_iff_not]
      refine ⟨by simp, ?_⟩
      intro hn
      simp [hn]
  refine ⟨key.1, key.2, ?_⟩
  intro hA
  have hs : (aRecord res).Status = "" := by simp [aRecord, getRecord, hA]
  cases hb : (Analyze lower order res).IsDangling with
  | false => rfl
  | true =>
    have := (key.1.mp hb).2
    rw [hs] at this
    simp at this

theorem analyze_dangling_iff_witness :
    shopRes.Records.lookup "A" = none ∧
    (Analyze asciiLower providers shopRes).IsDangling = false :=
  ⟨by decide, (analyze_dangling_iff asciiLower providers shopRes).2.2 (by decide)⟩

theorem detectLoop_of_mem (cname name : String) (order : List (String × String))
    (hmem : ∃ key, (key, name) ∈ order ∧ HasSuffix cname key = true)
    (huniq : ∀ e ∈ order, HasSuffix cname e.1 = true → e.2 = name) :
    detectLoop cname order = name := by
  induction order with
  | nil => simp at hmem
  | cons e rest ih =>
    obtain ⟨k, n⟩ := e
    unfold detectLoop
    by_cases hk : HasSuffix cname k = true
    · simp only [hk, if_true]
      exact huniq (k, n) (by simp) hk
    · simp only [hk]
      apply ih
      · obtain ⟨key, hm, hs⟩ := hmem
        refine ⟨key, ?_, hs⟩
        rcases List.mem_cons.mp hm with h | h
        · cases h
          exact absurd hs hk
        · exact h
      · intro e he
        exact huniq e (List.mem_cons_of_mem _ he)

theorem detectLoop_of_no_match (cname : String) (order : List (String × String))
    (h : ∀ e ∈ order, HasSuffix cname e.1 = false) : detectLoop cname order = "" := by
  induction order with
  | nil => rfl
  | cons e rest ih =>
    obtain ⟨k, n⟩ := e
    unfold detectLoop
    have hk : HasSuffix cname k = false := h (k, n) (by simp)
    simp only [hk]
    exact ih (fun e he => h e (List.mem_cons_of_mem _ he))

/-- No key of the provider table is a suffix of another key. -/
theorem providers_no_overlap :
    ∀ e1 ∈ providers, ∀ e2 ∈ providers, HasSuffix e2.1 e1.1 = true → e1 = e2 := by
  decide

/-- At most one entry of the provider table matches a target. -/
theorem providers_match_unique (cname : String) (e1 e2 : String × String)
    (h1 : e1 ∈ providers) (h2 : e2 ∈ providers)
    (m1 : HasSuffix cname e1.1 = true) (m2 : HasSuffix cname e2.1 = true) : e1 = e2 := by
  rw [hasSuffix_iff] at m1 m2
  rcases List.suffix_or_suffix_of_suffix m1 m2 with h | h
  · exact providers_no_overlap e1 h1 e2 h2 ((hasSuffix_iff _ _).mpr h)
  · exact (providers_no_overlap e2 h2 e1 h1 ((hasSuffix_iff _ _).mpr h)).symm

/-- The result of `detectProvider` for any traversal order of the table. -/
theorem detectProvider_of_match (lower : String → String) (order : List (String × String))
    (hperm : order.Perm providers) (cname key name : String)
    (hmem : (key, name) ∈ providers) (hs : HasSuffix (lower cname) key = true) :
    detectProvider lower order cname = name := by
  unfold detectProvider
  apply detectLoop_of_mem
  · exact ⟨key, hperm.mem_iff.mpr hmem, hs⟩
  · intro e he hm
    have := providers_match_unique (lower cname) e (key, name) (hperm.mem_iff.mp he) hmem hm hs
    rw [this]

theorem detectProvider_of_no_match (lower : String → String) (order : List (String × String))
    (hperm : order.Perm providers) (cname : String)
    (h : ∀ e ∈ providers, HasSuffix (lower cname) e.1 = false) :
    detectProvider lower order cname = "" := by
  unfold detectProvider
  apply detectLoop_of_no_match
  intro e he
  exact h e (hperm.mem_iff.mp he)

theorem detectProvider_order_irrelevant (lower : String → String)
    (o1 o2 : List (String × String)) (h1 : o1.Perm providers) (h2 : o2.Perm providers)
    (cname : String) : detectProvider lower o1 cname = detectProvider lower o2 cname := by
  by_cases h : ∃ e ∈ providers, HasSuffix (lower cname) e.1 = true
  · obtain ⟨⟨k, n⟩, he, hs⟩ := h
    rw [detectProvider_of_match lower o1 h1 cname k n he hs,
      detectProvider_of_match lower o2 h2 cname k n he hs]
  · have h0 : ∀ e ∈ providers, HasSuffix (lower cname) e.1 = false := by
      intro e he
      cases hb : HasSuffix (lower cname) e.1 with
      | false => rfl
      | true => exact absurd ⟨e, he, hb⟩ h
    rw [detectProvider_of_no_match lower o1 h1 cname h0,
      detectProvider_of_no_match lower o2 h2 cname h0]

/-- Claim C3. Provider detection is by suffix of the lower-cased first CNAME
value: for every traversal order of the provider table, when the lower-cased
target ends with a key of the table the provider is the name under that key
(Shopify for a target that lower-cases to `shops.myshopify.com`, Azure App
Service for `app.azurewebsites.net`); when it ends with no key, or there is
no CNAME value, the provider is empty. -/
theorem analyze_provider_detection (lower : String → String) (order : List (String × String))
    (res : ResolutionResult) (hperm : order.Perm providers) :
    (∀ target key name, (cnameValues res).head? = some target → (key, name) ∈ providers →
      HasSuffix (lower target) key = true → (Analyze lower order res).CloudProvider = name) ∧
    (∀ target, (cnameValues res).head? = some target →
      (∀ e ∈ providers, HasSuffix (lower target) e.1 = false) →
      (Analyze lower order res).CloudProvider = "") ∧
    (cnameValues res = [] → (Analyze lower order res).CloudProvider = "") ∧
    (∀ target, (cnameValues res).head? = some target → lower target = "shops.myshopify.com" →
      (Analyze lower order res).CloudProvider = "Shopify") ∧
    (∀ target, (cnameValues res).head? = some target → lower target = "app.azurewebsites.net" →
      (Analyze lower order res).CloudProvider = "Azure App Service") := by
  refine ⟨?_, ?_, ?_, ?_, ?_⟩
  · intro target key name ht hmem hs
    rw [(analyze_cname_some lower order res target ht).2.2.1]
    exact detectProvider_of_match lower order hperm target key name hmem hs
  · intro target ht hno
    rw [(analyze_cname_some lower order res target ht).2.2.1]
    exact detectProvider_of_no_match lower order hperm target hno
  · intro h
    exact (analyze_cname_none lower order res h).2.2.1
  · intro target ht hl
    rw [(analyze_cname_some lower order res target ht).2.2.1]
    exact detectProvider_of_match lower order hperm target "shopify.com" "Shopify"
      (by decide) (by rw [hl]; decide)
  · intro target ht hl
    rw [(analyze_cname_some lower order res target ht).2.2.1]
    exact detectProvider_of_match lower order hperm target "azurewebsites.net" "Azure App Service"
      (by decide) (by rw [hl]; decide)

theorem analyze_provider_detection_witness :
    providers.reverse.Perm providers ∧
    (Analyze asciiLower providers.reverse shopRes).CloudProvider = "Shopify" :=
  ⟨List.reverse_perm providers,
    (analyze_provider_detection asciiLower providers.reverse shopRes
      (List.reverse_perm providers)).2.2.2.1 "Shops.MyShopify.COM" (by decide) (by decide)⟩

/-- Claim C4. No key of the provider table is a suffix of another, so at most
one entry matches a target and `detectProvider` returns the same provider for
every traversal order of the table; hence two runs of `Analyze` on the same
result, whatever order each traverses the table in, return the same analysis
(flags, provider, risk level and notes). -/
theorem analyze_order_independent :
    (∀ e1 ∈ providers, ∀ e2 ∈ providers, HasSuffix e2.1 e1.1 = true → e1 = e2) ∧
    (∀ (cname : String) (e1 e2 : String × String), e1 ∈ providers → e2 ∈ providers →
      HasSuffix cname e1.1 = true → HasSuffix cname e2.1 = true → e1 = e2) ∧
    (∀ (lower : String → String) (o1 o2 : List (String × String)) (cname : String),
      o1.Perm providers → o2.Perm providers →
      detectProvider lower o1 cname = detectProvider lower o2 cname) ∧
    (∀ (lower : String → String) (o1 o2 : List (String × String)) (res : ResolutionResult),
      o1.Perm providers → o2.Perm providers →
      Analyze lower o1 res = Analyze lower o2 res) := by
  refine ⟨providers_no_overlap, ?_, ?_, ?_⟩
  · intro cname e1 e2 h1 h2 m1 m2
    exact providers_match_unique cname e1 e2 h1 h2 m1 m2
  · intro lower o1 o2 cname h1 h2
    exact detectProvider_order_irrelevant lower o1 o2 h1 h2 cname
  · intro lower o1 o2 res h1 h2
    have hfun : detectProvider lower o1 = detectProvider lower o2 :=
      funext (detectProvider_order_irrelevant lower o1 o2 h1 h2)
    unfold Analyze
    rw [hfun]

theorem analyze_order_independent_witness :
    providers.Perm providers ∧ providers.reverse.Perm providers ∧
    Analyze asciiLower providers shopRes = Analyze asciiLower providers.reverse shopRes :=
  ⟨List.Perm.refl providers, List.reverse_perm providers,
    analyze_order_independent.2.2.2 asciiLower providers providers.reverse shopRes
      (List.Perm.refl providers) (List.reverse_perm providers)⟩

/-! ## Theorems: scan pipeline -/

theorem processOutput_eq (opts : Options) (stream : List Result) :
    ProcessOutput opts stream =
      (stream.filter (fun r => !(opts.OnlyDangling && !r.Analysis.IsDangling))).map
        (renderOne opts) := by
  induction stream with
  | nil => rfl
  | cons r rest ih =>
    unfold ProcessOutput
    by_cases h : (opts.OnlyDangling && !r.Analysis.IsDangling) = true
    · simp only [h, if_true, List.filter, Bool.not_true]
      exact ih
    · have h0 : (opts.OnlyDangling && !r.Analysis.IsDangling) = false := by
        simpa using h
      rw [if_neg h, ih, List.filter_cons_of_pos (by simp [h0]), List.map_cons]
      unfold renderOne
      by_cases hj : opts.JSONOutput = true <;> simp [hj]

/-- Claim C5. With the only-dangling filter on, `ProcessOutput` renders
exactly the outcomes of the stream whose analysis is dangling, in the order
received: none that is not dangling, every one that is; with the filter off it
renders every outcome, in the order received. -/
theorem processOutput_filter (opts : Options) (stream : List Result) :
    (opts.OnlyDangling = true →
      ProcessOutput opts stream =
        (stream.filter (fun r => r.Analysis.IsDangling)).map (renderOne opts) ∧
      (∀ p ∈ ProcessOutput opts stream, p.1.Analysis.IsDangling = true) ∧
      (∀ r ∈ stream, r.Analysis.IsDangling = true → renderOne opts r ∈ ProcessOutput opts stream)) ∧
    (opts.OnlyDangling = false → ProcessOutput opts stream = stream.map (renderOne opts)) := by
  constructor
  · intro hon
    have heq : ProcessOutput opts stream =
        (stream.filter (fun r => r.Analysis.IsDangling)).map (renderOne opts) := by
      rw [processOutput_eq]
      simp [hon]
    refine ⟨heq, ?_, ?_⟩
    · intro p hp
      rw [heq, List.mem_map] at hp
      obtain ⟨r, hr, rfl⟩ := hp
      exact (List.mem_filter.mp hr).2
    · intro r hr hd
      rw [heq]
      exact List.mem_map_of_mem _ (List.mem_filter.mpr ⟨hr, hd⟩)
  · intro hoff
    rw [processOutput_eq]
    simp [hoff]

theorem processOutput_filter_witness :
    filterOpts.OnlyDangling = true ∧
    (ProcessOutput filterOpts filterStream).map (fun p => p.1.Resolution.Domain) = ["dangler.com"] ∧
    filterStream.map (fun r => r.Resolution.Domain) = ["foo.com", "dangler.com"] :=
  ⟨rfl, by rw [((processOutput_filter filterOpts filterStream).1 rfl).1]; decide, by decide⟩

theorem feedLoop_cons (text : String) (rest seen : List String) :
    feedLoop (text :: rest) seen =
      match normalizedName text with
      | none => feedLoop rest seen
      | some d => if d ∈ seen then feedLoop rest seen else d :: feedLoop rest (d :: seen) := by
  unfold normalizedName
  rw [feedLoop]
  by_cases h : TrimSpace text = ""
  · simp [h]
  · simp only [h, if_false]
    by_cases hs : TrimSuffix (TrimSpace text) "." ∈ seen
    · simp [hs]
    · simp [hs]

theorem inputNames_cons (text : String) (rest : List String) :
    inputNames (text :: rest) =
      match normalizedName text with
      | none => inputNames rest
      | some d => d :: inputNames rest := by
  unfold inputNames
  rw [List.filterMap_cons]
  cases normalizedName text <;> rfl

theorem feedLoop_mem (lines : List String) :
    ∀ (seen : List String) (d : String),
      d ∈ feedLoop lines seen ↔ d ∈ inputNames lines ∧ d ∉ seen := by
  induction lines with
  | nil => intro seen d; simp [feedLoop, inputNames]
  | cons text rest ih =>
    intro seen d
    rw [feedLoop_cons, inputNames_cons]
    cases hn : normalizedName text with
    | none => simp only []; exact ih seen d
    | some x =>
      simp only []
      by_cases hx : x ∈ seen
      · rw [if_pos hx, ih seen d, List.mem_cons]
        constructor
        · rintro ⟨h1, h2⟩
          exact ⟨Or.inr h1, h2⟩
        · rintro ⟨h1 | h1, h2⟩
          · subst h1
            exact absurd hx h2
          · exact ⟨h1, h2⟩
      · rw [if_neg hx, List.mem_cons, ih (x :: seen) d, List.mem_cons, List.mem_cons]
        constructor
        · rintro (h | ⟨h1, h2⟩)
          · subst h
            exact ⟨Or.inl rfl, hx⟩
          · exact ⟨Or.inr h1, fun h => h2 (Or.inr h)⟩
        · rintro ⟨h1 | h1, h2⟩
          · exact Or.inl h1
          · by_cases hd : d = x
            · exact Or.inl hd
            · exact Or.inr ⟨h1, fun h => h.elim hd h2⟩

theorem feedLoop_nodup (lines : List String) :
    ∀ seen : List String, (feedLoop lines seen).Nodup := by
  induction lines with
  | nil => intro seen; simp [feedLoop]
  | cons text rest ih =>
    intro seen
    rw [feedLoop_cons]
    cases hn : normalizedName text with
    | none => exact ih seen
    | some x =>
      simp only []
      by_cases hx : x ∈ seen
      · rw [if_pos hx]
        exact ih seen
      · rw [if_neg hx, List.nodup_cons]
        refine ⟨?_, ih (x :: seen)⟩
        intro hmem
        exact ((feedLoop_mem rest (x :: seen) x).mp hmem).2 (List.mem_cons_self x seen)

theorem feedLoop_sublist (lines : List String) :
    ∀ seen : List String, (feedLoop lines seen).Sublist (inputNames lines) := by
  induction lines with
  | nil => intro seen; simp [feedLoop, inputNames]
  | cons text rest ih =>
    intro seen
    rw [feedLoop_cons, inputNames_cons]
    cases hn : normalizedName text with
    | none => exact ih seen
    | some x =>
      simp only []
      by_cases hx : x ∈ seen
      · rw [if_pos hx]
        exact (ih seen).cons x
      · rw [if_neg hx]
        exact (ih (x :: seen)).cons₂ x

theorem feedLoop_indexOf (lines : List String) :
    ∀ (seen : List String) (a b : String),
      a ∈ feedLoop lines seen → b ∈ feedLoop lines seen →
      ((feedLoop lines seen).indexOf a < (feedLoop lines seen).indexOf b ↔
        (inputNames lines).indexOf a < (inputNames lines).indexOf b) := by
  induction lines with
  | nil => intro seen a b ha; simp [feedLoop] at ha
  | cons text rest ih =>
    intro seen a b
    rw [feedLoop_cons, inputNames_cons]
    cases hn : normalizedName text with
    | none => exact ih seen a b
    | some x =>
      simp only []
      by_cases hx : x ∈ seen
      · rw [if_pos hx]
        intro ha hb
        have hax : x ≠ a := fun h => ((feedLoop_mem rest seen a).mp ha).2 (h ▸ hx)
        have hbx : x ≠ b := fun h => ((feedLoop_mem rest seen b).mp hb).2 (h ▸ hx)
        rw [List.indexOf_cons_ne _ hax, List.indexOf_cons_ne _ hbx, Nat.succ_lt_succ_iff]
        exact ih seen a b ha hb
      · rw [if_neg hx]
        intro ha hb
        by_cases hax : x = a
        · subst hax
          by_cases hbx : x = b
          · subst hbx
            simp
          · rw [List.indexOf_cons_self, List.indexOf_cons_self,
              List.indexOf_cons_ne _ hbx, List.indexOf_cons_ne _ hbx]
            simp
        · have ha1 : a ∈ feedLoop rest (x :: seen) := by
            rcases List.mem_cons.mp ha with h | h
            · exact absurd h.symm hax
            · exact h
          by_cases hbx : x = b
          · subst hbx
            rw [List.indexOf_cons_self, List.indexOf_cons_self]
            simp
          · have hb1 : b ∈ feedLoop rest (x :: seen) := by
              rcases List.mem_cons.mp hb with h | h
              · exact absurd h.symm hbx
              · exact h
            rw [List.indexOf_cons_ne _ hax, List.indexOf_cons_ne _ hbx,
              List.indexOf_cons_ne _ hax, List.indexOf_cons_ne _ hbx,
              Nat.succ_lt_succ_iff, Nat.succ_lt_succ_iff]
            exact ih (x :: seen) a b ha1 hb1

/-- Claim C6. The names `Run` sends to the work queue contain no duplicate,
are exactly the names the input lines stand for (trimmed, trailing root dot
stripped), and keep the order of first arrival; `foo.com` and `foo.com.`
contribute one entry, so each name is processed at most once and the workers
emit at most one result per name. -/
theorem workQueue_dedup (lines : List String) :
    (workQueue lines).Nodup ∧
    (∀ d, d ∈ workQueue lines ↔ d ∈ inputNames lines) ∧
    (workQueue lines).Sublist (inputNames lines) ∧
    (∀ a b, a ∈ workQueue lines → b ∈ workQueue lines →
      ((workQueue lines).indexOf a < (workQueue lines).indexOf b ↔
        (inputNames lines).indexOf a < (inputNames lines).indexOf b)) ∧
    (∀ d, (workQueue lines).count d ≤ 1) ∧
    workQueue ["foo.com", "foo.com."] = ["foo.com"] ∧
    (∀ (lower : String → String) (order : String → List (String × String))
      (client : Resolver) (rnd : String → Nat),
      (emittedResults lower order client rnd lines).length ≤ (workQueue lines).length) := by
  refine ⟨feedLoop_nodup lines [], ?_, feedLoop_sublist lines [], feedLoop_indexOf lines [],
    ?_, by decide, ?_⟩
  · intro d
    unfold workQueue
    rw [feedLoop_mem]
    simp
  · exact List.nodup_iff_count_le_one.mp (feedLoop_nodup lines [])
  · intro lower order client rnd
    exact List.length_filterMap_le _ _

theorem workQueue_dedup_witness :
    "b.org" ∈ workQueue [" b.org ", "a.com.", "b.org.", "a.com"] ∧
    "a.com" ∈ workQueue [" b.org ", "a.com.", "b.org.", "a.com"] ∧
    ((workQueue [" b.org ", "a.com.", "b.org.", "a.com"]).indexOf "b.org" <
        (workQueue [" b.org ", "a.com.", "b.org.", "a.com"]).indexOf "a.com" ↔
      (inputNames [" b.org ", "a.com.", "b.org.", "a.com"]).indexOf "b.org" <
        (inputNames [" b.org ", "a.com.", "b.org.", "a.com"]).indexOf "a.com") :=
  ⟨by decide, by decide,
    (workQueue_dedup [" b.org ", "a.com.", "b.org.", "a.com"]).2.2.2.1 "b.org" "a.com"
      (by decide) (by decide)⟩

theorem trimSuffix_dot (s : String) (h : HasSuffix s "." = true) :
    ∃ init : List Char, s.data = init ++ ['.'] ∧ TrimSuffix s "." = String.mk init := by
  have hs := (hasSuffix_iff s ".").mp h
  obtain ⟨init, hinit⟩ := hs
  refine ⟨init, hinit.symm, ?_⟩
  unfold TrimSuffix
  rw [if_pos h, ← hinit]
  have hdot : (".".data : List Char) = ['.'] := rfl
  rw [hdot]
  simp

theorem trimSuffix_no_trailing_dot (s : String) (h : HasSuffix s ".." = false) :
    HasSuffix (TrimSuffix s ".") "." = false := by
  cases hone : HasSuffix s "." with
  | false =>
    unfold TrimSuffix
    rw [hone]
    simpa using hone
  | true =>
    obtain ⟨init, hdata, htrim⟩ := trimSuffix_dot s hone
    rw [htrim]
    cases hb : HasSuffix (String.mk init) "." with
    | false => rfl
    | true =>
      exfalso
      obtain ⟨t, ht⟩ := (hasSuffix_iff _ _).mp hb
      have h2 : HasSuffix s ".." = true := by
        rw [hasSuffix_iff]
        refine ⟨t, ?_⟩
        have hdot : (".".data : List Char) = ['.'] := rfl
        have hdd : ("..".data : List Char) = ['.', '.'] := rfl
        rw [hdot] at ht
        simp only at ht
        rw [hdata, ← ht, hdd]
        simp
      rw [h] at h2
      exact Bool.false_ne_true h2

theorem trimSuffix_ne_empty (s : String) (h0 : s ≠ "") (h1 : s ≠ ".") :
    TrimSuffix s "." ≠ "" := by
  cases hone : HasSuffix s "." with
  | false =>
    unfold TrimSuffix
    rw [hone]
    simpa using h0
  | true =>
    obtain ⟨init, hdata, htrim⟩ := trimSuffix_dot s hone
    rw [htrim]
    intro he
    have hnil : init = [] := by
      have := String.ext_iff.mp he
      simpa using this
    apply h1
    apply String.ext_iff.mpr
    rw [hdata, hnil]
    rfl

theorem feedLoop_origin (lines : List String) :
    ∀ (seen : List String) (d : String), d ∈ feedLoop lines seen →
      ∃ text ∈ lines, TrimSpace text ≠ "" ∧ d = TrimSuffix (TrimSpace text) "." := by
  intro seen d hd
  have hmem := ((feedLoop_mem lines seen d).mp hd).1
  unfold inputNames at hmem
  obtain ⟨text, ht, hn⟩ := List.mem_filterMap.mp hmem
  refine ⟨text, ht, ?_⟩
  unfold normalizedName at hn
  by_cases hblank : TrimSpace text = ""
  · simp [hblank] at hn
  · simp only [hblank, if_false, Option.some.injEq] at hn
    exact ⟨hblank, hn.symm⟩

/-- Claim C7 fails as stated: the line `foo.com..` puts the name `foo.com.`,
which ends with a dot, on the work queue. -/
theorem workQueue_trailing_dot_counterexample :
    workQueue ["foo.com.."] = ["foo.com."] ∧ HasSuffix "foo.com." "." = true := by
  decide

/-- Claim C7, amended. Every name that `Run` hands to the work queue is a
non-blank input line with surrounding white space trimmed and one trailing
dot removed; it does not end with a dot when the trimmed line does not end
with two dots, and it is non-empty when the trimmed line is not the single
dot. -/
theorem workQueue_name_shape (lines : List String) (d : String) (hd : d ∈ workQueue lines) :
    ∃ text ∈ lines, TrimSpace text ≠ "" ∧ d = TrimSuffix (TrimSpace text) "." ∧
      (HasSuffix (TrimSpace text) ".." = false → HasSuffix d "." = false) ∧
      (TrimSpace text ≠ "." → d ≠ "") := by
  obtain ⟨text, ht, hblank, heq⟩ := feedLoop_origin lines [] d hd
  refine ⟨text, ht, hblank, heq, ?_, ?_⟩
  · intro h2
    rw [heq]
    exact trimSuffix_no_trailing_dot _ h2
  · intro h1
    rw [heq]
    exact trimSuffix_ne_empty _ hblank h1

theorem workQueue_name_shape_witness :
    "foo.com" ∈ workQueue ["  foo.com.\t"] ∧
    ∃ text ∈ ["  foo.com.\t"], TrimSpace text ≠ "" ∧ "foo.com" = TrimSuffix (TrimSpace text) "." ∧
      (HasSuffix (TrimSpace text) ".." = false → HasSuffix "foo.com" "." = false) ∧
      (TrimSpace text ≠ "." → "foo.com" ≠ "") :=
  ⟨by decide, workQueue_name_shape ["  foo.com.\t"] "foo.com" (by decide)⟩

theorem probeHit_some (w : ResolutionResult) :
    probeHit (some w) = true ↔ (aRecord w).Status = "NOERROR" ∧ (aRecord w).Values ≠ [] := by
  unfold probeHit aRecord getRecord
  cases hl : w.Records.lookup "A" with
  | none => simp [hl]
  | some a => simp [hl, List.length_pos]

/-- What `processDomain` emits for a name the resolver answers. -/
theorem processDomain_of_answer (lower : String → String) (order : List (String × String))
    (client : Resolver) (n : Nat) (domain : String) (res : ResolutionResult)
    (hres : client domain = (some res, none)) :
    processDomain lower order client n domain =
      .emitted
        { Resolution :=
            { res with HasWildcard := res.HasWildcard || probeHit (client (randName n domain)).1 },
          Analysis := Analyze lower order
            { res with HasWildcard := res.HasWildcard || probeHit (client (randName n domain)).1 } } := by
  unfold processDomain
  rw [hres]
  simp only []
  cases hp : probeHit (client (randName n domain)).1 with
  | false => simp
  | true => simp

/-- Claim C9. For a domain whose own resolution succeeds, `processDomain`
emits an outcome; its `HasWildcard` is true whenever the probe returned a
result whose A record is NOERROR with at least one value, whatever the
records of the domain are; and when the resolver returned the domain with
`HasWildcard` false and the probe returned no result, or an A record that is
not NOERROR with values, `HasWildcard` stays false. Nothing else of the
resolution changes. -/
theorem processDomain_wildcard (lower : String → String) (order : List (String × String))
    (client : Resolver) (n : Nat) (domain : String) (res : ResolutionResult)
    (hres : client domain = (some res, none)) :
    ∃ r, processDomain lower order client n domain = .emitted r ∧
      r.Resolution = { res with HasWildcard := r.Resolution.HasWildcard } ∧
      (∀ w, (client (randName n domain)).1 = some w →
        (aRecord w).Status = "NOERROR" → (aRecord w).Values ≠ [] →
        r.Resolution.HasWildcard = true) ∧
      (res.HasWildcard = false →
        ((client (randName n domain)).1 = none ∨
          ∃ w, (client (randName n domain)).1 = some w ∧
            ¬((aRecord w).Status = "NOERROR" ∧ (aRecord w).Values ≠ [])) →
        r.Resolution.HasWildcard = false) := by
  refine ⟨_, processDomain_of_answer lower order client n domain res hres, rfl, ?_, ?_⟩
  · intro w hw hs hv
    have : probeHit (some w) = true := (probeHit_some w).mpr ⟨hs, hv⟩
    simp [hw, this]
  · intro hfalse hprobe
    rcases hprobe with hnone | ⟨w, hw, hnot⟩
    · simp [hfalse, hnone, probeHit]
    · have : probeHit (some w) = false := by
        cases hb : probeHit (some w) with
        | false => rfl
        | true => exact absurd ((probeHit_some w).mp hb) hnot
      simp [hfalse, hw, this]

theorem processDomain_wildcard_witness :
    wildcardMock "foo.com" =
      (some { Domain := "foo.com",
              Records := [("A", { Values := ["9.9.9.9"], Status := "NOERROR" })] }, none) ∧
    ∃ r, processDomain asciiLower providers wildcardMock 7 "foo.com" = .emitted r ∧
      r.Resolution.HasWildcard = true :=
  ⟨rfl, by
    obtain ⟨r, h1, _, h3, _⟩ :=
      processDomain_wildcard asciiLower providers wildcardMock 7 "foo.com" _ rfl
    exact ⟨r, h1, h3 _ rfl (by decide) (by decide)⟩⟩

theorem queryLoop_spec {σ : Type} (net : Net σ) (c : Client) (name : String) (qtype : Nat) :
    ∀ (n : Nat) (s : σ) (err : Option String) (done : List Attempt),
      ∃ made, (queryLoop net c name qtype n s err done).attempts = done ++ made ∧
        made.length ≤ n ∧
        ((∃ r fails, (queryLoop net c name qtype n s err done).msg = some r ∧
            (queryLoop net c name qtype n s err done).err = none ∧
            made = fails ++ [.response r] ∧ ∀ a ∈ fails, ∃ e, a = Attempt.failed e) ∨
          ((queryLoop net c name qtype n s err done).msg = none ∧ made.length = n ∧
            (∀ a ∈ made, ∃ e, a = Attempt.failed e) ∧
            ((made = [] ∧ (queryLoop net c name qtype n s err done).err = err) ∨
              ∃ init e, made = init ++ [.failed e] ∧
                (queryLoop net c name qtype n s err done).err = some e))) := by
  intro n
  induction n with
  | zero =>
    intro s err done
    refine ⟨[], by simp [queryLoop], le_refl _, Or.inr ⟨rfl, rfl, by simp, Or.inl ⟨rfl, rfl⟩⟩⟩
  | succ n ih =>
    intro s err done
    unfold queryLoop
    cases hx : net.exchange s name qtype c.ResolverAddr with
    | mk a s1 =>
      cases a with
      | response r =>
        exact ⟨[.response r], rfl, by simp, Or.inl ⟨r, [], rfl, rfl, rfl, by simp⟩⟩
      | failed e =>
        obtain ⟨made, hat, hlen, hcase⟩ := ih (net.sleep s1) (some e) (done ++ [.failed e])
        refine ⟨.failed e :: made, by rw [hat]; simp, by simp; omega, ?_⟩
        rcases hcase with ⟨r, fails, hm, he, hmade, hf⟩ | ⟨hm, hl, hall, herr⟩
        · refine Or.inl ⟨r, .failed e :: fails, hm, he, by rw [hmade]; simp, ?_⟩
          intro a ha
          rcases List.mem_cons.mp ha with h | h
          · exact ⟨e, h⟩
          · exact hf a h
        · refine Or.inr ⟨hm, by simp [hl], ?_, Or.inr ?_⟩
          · intro a ha
            rcases List.mem_cons.mp ha with h | h
            · exact ⟨e, h⟩
            · exact hall a h
          · rcases herr with ⟨hnil, he⟩ | ⟨init, e2, hinit, he⟩
            · exact ⟨[], e, by rw [hnil]; rfl, he⟩
            · exact ⟨.failed e :: init, e2, by rw [hinit]; rfl, he⟩

/-- What `Query` returns: the first response, after failures only, or, when
no attempt succeeds, the error of the last attempt (of the name conversion
when that fails). -/
theorem query_spec {σ : Type} (net : Net σ) (c : Client) (domain : String) (qtype : Nat)
    (s : σ) :
    (Query net c domain qtype s).attempts.length ≤ (c.Retries + 1).toNat ∧
    ((∃ r fails, (Query net c domain qtype s).msg = some r ∧
        (Query net c domain qtype s).err = none ∧
        (Query net c domain qtype s).attempts = fails ++ [.response r] ∧
        ∀ a ∈ fails, ∃ e, a = Attempt.failed e) ∨
      ((Query net c domain qtype s).msg = none ∧
        (∀ a ∈ (Query net c domain qtype s).attempts, ∃ e, a = Attempt.failed e) ∧
        ((∃ e, net.toASCII domain = .error e ∧ (Query net c domain qtype s).attempts = [] ∧
            (Query net c domain qtype s).err = some e) ∨
          (∃ a, net.toASCII domain = .ok a ∧
            (Query net c domain qtype s).attempts.length = (c.Retries + 1).toNat ∧
            (((Query net c domain qtype s).attempts = [] ∧
                (Query net c domain qtype s).err = none) ∨
              ∃ init e, (Query net c domain qtype s).attempts = init ++ [.failed e] ∧
                (Query net c domain qtype s).err = some e))))) := by
  unfold Query
  cases hc : net.toASCII domain with
  | error e =>
    refine ⟨by simp, Or.inr ⟨rfl, by simp, Or.inl ⟨e, rfl, rfl, rfl⟩⟩⟩
  | ok a =>
    obtain ⟨made, hat, hlen, hcase⟩ :=
      queryLoop_spec net c a qtype (c.Retries + 1).toNat s none []
    rw [List.nil_append] at hat
    simp only []
    rw [hat]
    refine ⟨hlen, ?_⟩
    rcases hcase with ⟨r, fails, hm, he, hmade, hf⟩ | ⟨hm, hl, hall, herr⟩
    · exact Or.inl ⟨r, fails, hm, he, hmade, hf⟩
    · exact Or.inr ⟨hm, hall, Or.inr ⟨a, rfl, hl, herr⟩⟩

theorem query_answers {σ : Type} (net : Net σ) (c : Client) (domain : String) (qtype : Nat)
    (s : σ) (hr : 0 ≤ c.Retries) (mt : String) :
    (recordOf net mt (Query net c domain qtype s)).isSome = true := by
  obtain ⟨_, hcase⟩ := query_spec net c domain qtype s
  unfold recordOf
  rcases hcase with ⟨r, fails, hm, he, _, _⟩ | ⟨hm, _, ⟨e, _, _, he⟩ | ⟨a, _, hl, herr⟩⟩
  · rw [he, hm]
    simp only []
    split <;> rfl
  · rw [he]
    rfl
  · rcases herr with ⟨hnil, _⟩ | ⟨init, e, _, he⟩
    · rw [hnil] at hl
      have : (c.Retries + 1).toNat = 0 := by simpa using hl.symm
      omega
    · rw [he]
      rfl

theorem lookup_cons_ite (k k1 : String) (w : RecordResult)
    (rest : List (String × RecordResult)) :
    List.lookup k ((k1, w) :: rest) = if k = k1 then some w else List.lookup k rest := by
  rw [List.lookup_cons]
  by_cases h : k = k1
  · subst h
    simp
  · have hb : (k == k1) = false := by simpa using h
    simp [hb, h]

theorem lookup_setRecord (m : List (String × RecordResult)) (key k : String) (v : RecordResult) :
    (setRecord m key v).lookup k = if k = key then some v else m.lookup k := by
  induction m with
  | nil =>
    unfold setRecord
    rw [lookup_cons_ite]
  | cons p rest ih =>
    obtain ⟨k1, w⟩ := p
    unfold setRecord
    by_cases h1 : k1 = key
    · subst h1
      rw [if_pos rfl, lookup_cons_ite, lookup_cons_ite]
      by_cases h : k = k1 <;> simp [h]
    · rw [if_neg h1, lookup_cons_ite, lookup_cons_ite, ih]
      by_cases h : k = key
      · subst h
        have hne : ¬ k = k1 := fun h => h1 h.symm
        simp [hne]
      · simp [h]

theorem recordsLoop_spec {σ : Type} (net : Net σ) (c : Client) (domain : String)
    (hr : 0 ≤ c.Retries) :
    ∀ (ts : List Nat) (result : ResolutionResult) (done : List Attempt) (s : σ),
      (∀ pre t post, ts = pre ++ t :: post →
        net.ctxErr (stateAfter net c domain pre s) = none) →
      ∃ res, (recordsLoop net c domain ts result done s).outcome = .result res ∧
        res.Domain = result.Domain ∧
        (∀ k, k ∉ ts.map TypeToString → res.Records.lookup k = result.Records.lookup k) ∧
        (∀ pre t post, ts = pre ++ t :: post → TypeToString t ∉ post.map TypeToString →
          res.Records.lookup (TypeToString t) =
            recordOf net (TypeToString t)
              (Query net c domain t (stateAfter net c domain pre s))) := by
  intro ts
  induction ts with
  | nil =>
    intro result done s _
    refine ⟨result, rfl, rfl, fun _ _ => rfl, ?_⟩
    intro pre t post h
    simp at h
  | cons t rest ih =>
    intro result done s hctx
    have h0 : net.ctxErr s = none := hctx [] t rest rfl
    obtain ⟨recRes, hrec⟩ := Option.isSome_iff_exists.mp
      (query_answers net c domain t s hr (TypeToString t))
    have hctx1 : ∀ pre t1 post, rest = pre ++ t1 :: post →
        net.ctxErr (stateAfter net c domain pre (Query net c domain t s).state) = none := by
      intro pre t1 post h
      exact hctx (t :: pre) t1 post (by rw [h]; rfl)
    obtain ⟨res, hout, hdom, hother, hsplit⟩ :=
      ih { result with Records := setRecord result.Records (TypeToString t) recRes }
        (done ++ (Query net c domain t s).attempts) (Query net c domain t s).state hctx1
    refine ⟨res, ?_, hdom, ?_, ?_⟩
    · unfold recordsLoop
      simp only [h0, hrec]
      exact hout
    · intro k hk
      simp only [List.map_cons, List.mem_cons, not_or] at hk
      rw [hother k hk.2, lookup_setRecord, if_neg hk.1]
    · intro pre t1 post h hnot
      cases pre with
      | nil =>
        simp only [List.nil_append, List.cons.injEq] at h
        obtain ⟨rfl, rfl⟩ := h
        rw [hother _ hnot, lookup_setRecord, if_pos rfl, ← hrec]
        rfl
      | cons t0 pre1 =>
        simp only [List.cons_append, List.cons.injEq] at h
        obtain ⟨rfl, hrest⟩ := h
        exact hsplit pre1 t1 post hrest hnot

theorem types_names_nodup : (types.map TypeToString).Nodup := by
  decide

theorem types_split_fresh (pre : List Nat) (t : Nat) (post : List Nat)
    (h : types = pre ++ t :: post) : TypeToString t ∉ post.map TypeToString := by
  have hn := types_names_nodup
  rw [h, List.map_append, List.map_cons] at hn
  exact (List.nodup_cons.mp (List.nodup_append.mp hn).2.1).1

theorem recordOf_error {σ : Type} (net : Net σ) (mt : String) (q : QueryResult σ) (e : String)
    (he : q.err = some e) :
    recordOf net mt q = some { Typ := mt, Status := "ERROR", Error := e } := by
  unfold recordOf
  rw [he]

/-- Claim C10. `Query` makes at most `Retries + 1` exchange attempts and
returns the first response, which ends the attempts; a response among the
attempts is always the one returned, and it returns no response only after
`Retries + 1` failed attempts. With a retry count that is not negative
and a context that is not cancelled when a record type comes up, `GetRecords`
returns a result with an entry for every queried type, and for a type whose
attempts all failed the entry has status ERROR and the error text of the last
attempt. -/
theorem getRecords_retries_then_error {σ : Type} (net : Net σ) (c : Client) (domain : String)
    (s : σ) :
    (∀ (qtype : Nat) (s0 : σ),
      (Query net c domain qtype s0).attempts.length ≤ (c.Retries + 1).toNat ∧
      (∀ r, (Query net c domain qtype s0).msg = some r →
        (Query net c domain qtype s0).err = none ∧
        ∃ fails, (Query net c domain qtype s0).attempts = fails ++ [.response r] ∧
          ∀ a ∈ fails, ∃ e, a = Attempt.failed e) ∧
      (∀ r, Attempt.response r ∈ (Query net c domain qtype s0).attempts →
        (Query net c domain qtype s0).msg = some r) ∧
      (∀ a, net.toASCII domain = .ok a → (Query net c domain qtype s0).msg = none →
        (Query net c domain qtype s0).attempts.length = (c.Retries + 1).toNat ∧
        ∀ x ∈ (Query net c domain qtype s0).attempts, ∃ e, x = Attempt.failed e)) ∧
    (0 ≤ c.Retries →
      (∀ pre t post, types = pre ++ t :: post →
        net.ctxErr (stateAfter net c domain pre s) = none) →
      ∃ res, (GetRecords net c domain s).outcome = .result res ∧
        (∀ t ∈ types, (res.Records.lookup (TypeToString t)).isSome = true) ∧
        ∀ pre t post, types = pre ++ t :: post →
          res.Records.lookup (TypeToString t) =
            recordOf net (TypeToString t)
              (Query net c domain t (stateAfter net c domain pre s)) ∧
          ((∀ a ∈ (Query net c domain t (stateAfter net c domain pre s)).attempts,
              ∃ e, a = Attempt.failed e) →
            ∃ e, (Query net c domain t (stateAfter net c domain pre s)).err = some e ∧
              (∀ a, net.toASCII domain = .ok a →
                ∃ init, (Query net c domain t (stateAfter net c domain pre s)).attempts =
                  init ++ [.failed e]) ∧
              res.Records.lookup (TypeToString t) =
                some { Typ := TypeToString t, Status := "ERROR", Error := e })) := by
  constructor
  · intro qtype s0
    obtain ⟨hlen, hcase⟩ := query_spec net c domain qtype s0
    refine ⟨hlen, ?_, ?_, ?_⟩
    · intro r hr
      rcases hcase with ⟨r0, fails, hm, he, hat, hf⟩ | ⟨hm, _, _⟩
      · rw [hm] at hr
        cases hr
        exact ⟨he, fails, hat, hf⟩
      · rw [hm] at hr
        cases hr
    · intro r hr
      rcases hcase with ⟨r0, fails, hm, _, hat, hf⟩ | ⟨_, hall, _⟩
      · rw [hat, List.mem_append] at hr
        rcases hr with h | h
        · obtain ⟨e, he⟩ := hf _ h
          cases he
        · simp only [List.mem_singleton, Attempt.response.injEq] at h
          rw [hm, h]
      · obtain ⟨e, he⟩ := hall _ hr
        cases he
    · intro a ha hnone
      rcases hcase with ⟨r0, _, hm, _, _, _⟩ | ⟨_, hall, ⟨e, hconv, _, _⟩ | ⟨_, _, hl, _⟩⟩
      · rw [hm] at hnone
        cases hnone
      · rw [hconv] at ha
        cases ha
      · exact ⟨hl, hall⟩
  · intro hr hctx
    obtain ⟨res, hout, _, _, hsplit⟩ :=
      recordsLoop_spec net c domain hr types { Domain := domain, Records := [] } [] s hctx
    have hentry : ∀ pre t post, types = pre ++ t :: post →
        res.Records.lookup (TypeToString t) =
          recordOf net (TypeToString t)
            (Query net c domain t (stateAfter net c domain pre s)) :=
      fun pre t post h => hsplit pre t post h (types_split_fresh pre t post h)
    refine ⟨res, hout, ?_, ?_⟩
    · intro t ht
      obtain ⟨pre, post, h⟩ := List.append_of_mem ht
      rw [hentry pre t post h]
      exact query_answers net c domain t _ hr _
    · intro pre t post h
      refine ⟨hentry pre t post h, ?_⟩
      intro hall
      obtain ⟨_, hcase⟩ := query_spec net c domain t (stateAfter net c domain pre s)
      rcases hcase with ⟨r0, fails, _, _, hat, _⟩ | ⟨_, _, ⟨e, hconv, _, he⟩ | ⟨a, hconv, hl, herr⟩⟩
      · obtain ⟨e, he⟩ := hall (.response r0) (by rw [hat]; simp)
        cases he
      · refine ⟨e, he, ?_, ?_⟩
        · intro a ha
          rw [hconv] at ha
          cases ha
        · rw [hentry pre t post h]
          exact recordOf_error net _ _ e he
      · rcases herr with ⟨hnil, _⟩ | ⟨init, e, hinit, he⟩
        · rw [hnil] at hl
          have : (c.Retries + 1).toNat = 0 := by simpa using hl.symm
          omega
        · refine ⟨e, he, fun _ _ => ⟨init, hinit⟩, ?_⟩
          rw [hentry pre t post h]
          exact recordOf_error net _ _ e he

theorem getRecords_retries_then_error_witness :
    0 ≤ runClient.Retries ∧
    (∀ pre t post, types = pre ++ t :: post →
      timeoutNet.ctxErr (stateAfter timeoutNet runClient "timeout.com" pre 0) = none) ∧
    (Query timeoutNet runClient "timeout.com" TypeA 0).attempts =
      [.failed "i/o timeout", .failed "i/o timeout", .failed "i/o timeout"] ∧
    ∃ res, (GetRecords timeoutNet runClient "timeout.com" 0).outcome = .result res ∧
      res.Records.lookup "A" = some { Typ := "A", Status := "ERROR", Error := "i/o timeout" } ∧
      ∀ t ∈ types, (res.Records.lookup (TypeToString t)).isSome = true := by
  have hctx : ∀ pre t post, types = pre ++ t :: post →
      timeoutNet.ctxErr (stateAfter timeoutNet runClient "timeout.com" pre 0) = none :=
    fun _ _ _ _ => rfl
  obtain ⟨res, hout, hall, hsplit⟩ :=
    (getRecords_retries_then_error timeoutNet runClient "timeout.com" 0).2 (by decide) hctx
  refine ⟨by decide, hctx, by decide, res, hout, ?_, hall⟩
  have hat : (Query timeoutNet runClient "timeout.com" TypeA
      (stateAfter timeoutNet runClient "timeout.com" [] 0)).attempts =
      [.failed "i/o timeout", .failed "i/o timeout", .failed "i/o timeout"] := by
    decide
  obtain ⟨e, he, _, hlook⟩ := (hsplit [] TypeA _ rfl).2 (by
    intro a ha
    rw [hat] at ha
    simp only [List.mem_cons, List.mem_singleton, List.not_mem_nil, or_false, or_self] at ha
    exact ⟨_, ha⟩)
  have he2 : e = "i/o timeout" := by
    have h0 : (Query timeoutNet runClient "timeout.com" TypeA 0).err = some "i/o timeout" := by
      decide
    rw [show stateAfter timeoutNet runClient "timeout.com" [] 0 = 0 from rfl, h0] at he
    exact (Option.some.inj he).symm
  rw [he2] at hlook
  exact hlook

/-! ## Theorems: analyzer, continued -/

/-- Claim C15. The risk level returned by `Analyze` is HIGH exactly when the
analysis is dangling and LOW otherwise, never MEDIUM or CRITICAL; with no
CNAME value the risk is LOW, the analysis is not dangling, and the dangling
CNAME and the provider are empty. -/
theorem analyze_risk_level (lower : String → String) (order : List (String × String))
    (res : ResolutionResult) :
    ((Analyze lower order res).RiskLevel = "HIGH" ↔ (Analyze lower order res).IsDangling = true) ∧
    ((Analyze lower order res).RiskLevel = "LOW" ↔ (Analyze lower order res).IsDangling = false) ∧
    (Analyze lower order res).RiskLevel ≠ "MEDIUM" ∧
    (Analyze lower order res).RiskLevel ≠ "CRITICAL" ∧
    (cnameValues res = [] →
      (Analyze lower order res).RiskLevel = "LOW" ∧
      (Analyze lower order res).IsDangling = false ∧
      (Analyze lower order res).DanglingCNAME = "" ∧
      (Analyze lower order res).CloudProvider = "") := by
  have hnone := analyze_cname_none lower order res
  refine ⟨?_, ?_, ?_, ?_, fun h => ⟨(hnone h).2.2.2, (hnone h).1, (hnone h).2.1, (hnone h).2.2.1⟩⟩ <;>
  · cases hv : cnameValues res with
    | nil =>
      obtain ⟨h1, _, _, h4⟩ := hnone hv
      rw [h4]
      try rw [h1]
      decide
    | cons t rest =>
      obtain ⟨h1, _, _, h4⟩ := analyze_cname_some lower order res t (by simp [hv])
      rw [h4]
      try rw [h1]
      by_cases hd : (aRecord res).Status = "NXDOMAIN" ∨
          ((aRecord res).Status = "SERVFAIL" ∧ (aRecord res).Values.length = 0)
      · simp only [hd, if_true, decide_True]
        all_goals decide
      · simp only [hd, if_false, decide_False]
        all_goals decide

theorem analyze_risk_level_witness :
    cnameValues lameRes = [] ∧
    (Analyze asciiLower providers lameRes).RiskLevel = "LOW" ∧
    (Analyze asciiLower providers lameRes).IsDangling = false ∧
    (Analyze asciiLower providers lameRes).DanglingCNAME = "" ∧
    (Analyze asciiLower providers lameRes).CloudProvider = "" :=
  ⟨by decide, (analyze_risk_level asciiLower providers lameRes).2.2.2.2 (by decide)⟩

theorem lookup_withoutNsSoa (m : List (String × RecordResult)) (k : String) :
    (m.filter (fun p => p.1 ≠ "NS" ∧ p.1 ≠ "SOA")).lookup k =
      if k ≠ "NS" ∧ k ≠ "SOA" then m.lookup k else none := by
  induction m with
  | nil => simp [List.lookup]
  | cons e rest ih =>
    obtain ⟨k1, w⟩ := e
    by_cases hk1 : k1 ≠ "NS" ∧ k1 ≠ "SOA"
    · rw [List.filter_cons_of_pos (by simpa using hk1), lookup_cons_ite, lookup_cons_ite, ih]
      by_cases h : k = k1
      · subst h
        simp [hk1]
      · simp [h]
    · rw [List.filter_cons_of_neg (by simpa using hk1), lookup_cons_ite, ih]
      by_cases h : k = k1
      · subst h
        simp [hk1]
      · simp [h]

/-- The NS check of `Analyze` only appends its note to what the analysis of
the result without the NS and SOA entries gives. -/
theorem analyze_ns_frame (lower : String → String) (order : List (String × String))
    (res : ResolutionResult) :
    Analyze lower order res =
      if (getRecord res.Records "NS").Values ≠ [] ∧
          (getRecord res.Records "SOA").Status = "NXDOMAIN" then
        { Analyze lower order (withoutNsSoa res) with
          Notes := (Analyze lower order (withoutNsSoa res)).Notes ++
            ["NS records present but SOA missing (Anomalous)"] }
      else Analyze lower order (withoutNsSoa res) := by
  have hc : (withoutNsSoa res).Records.lookup "CNAME" = res.Records.lookup "CNAME" := by
    unfold withoutNsSoa
    rw [lookup_withoutNsSoa]
    rfl
  have ha : getRecord (withoutNsSoa res).Records "A" = getRecord res.Records "A" := by
    unfold withoutNsSoa getRecord
    rw [lookup_withoutNsSoa]
    rfl
  have hn : (withoutNsSoa res).Records.lookup "NS" = none := by
    unfold withoutNsSoa
    rw [lookup_withoutNsSoa]
    rfl
  unfold Analyze
  rw [hc, ha, hn]
  simp only []
  cases hns : res.Records.lookup "NS" with
  | none =>
    have hv : (getRecord res.Records "NS").Values = [] := by simp [getRecord, hns]
    simp [hv]
  | some ns =>
    have hv : (getRecord res.Records "NS").Values = ns.Values := by simp [getRecord, hns]
    rw [hv]
    by_cases h1 : ns.Values = []
    · simp [h1]
    · have hpos : 0 < ns.Values.length := List.length_pos.mpr h1
      by_cases h2 : (getRecord res.Records "SOA").Status = "NXDOMAIN"
      · simp [h1, hpos, h2]
      · simp [h1, hpos, h2]

theorem analyze_notes_without_ns (lower : String → String) (order : List (String × String))
    (res : ResolutionResult) (hn : res.Records.lookup "NS" = none) :
    ∀ n ∈ (Analyze lower order res).Notes,
      (∃ t, n = "CNAME target: " ++ t) ∨ (∃ q, n = "SaaS Provider: " ++ q) ∨
        n = "Potential Dangling CNAME" := by
  unfold Analyze
  rw [hn]
  simp only []
  cases hl : res.Records.lookup "CNAME" with
  | none => simp
  | some r =>
    cases hv : r.Values with
    | nil => simp [hv]
    | cons t rest =>
      simp only [hv]
      by_cases hp : detectProvider lower order t = "" <;>
      by_cases hd : (getRecord res.Records "A").Status = "NXDOMAIN" ∨
          ((getRecord res.Records "A").Status = "SERVFAIL" ∧
            (getRecord res.Records "A").Values.length = 0) <;>
      simp only [hp, hd, ne_eq, not_true_eq_false, not_false_eq_true, if_true, if_false] <;>
      intro n hmem <;>
      simp only [List.nil_append, List.cons_append, List.mem_cons, List.mem_singleton,
        List.not_mem_nil, or_false] at hmem
      · rcases hmem with h | h
        · exact Or.inl ⟨t, h⟩
        · exact Or.inr (Or.inr h)
      · exact Or.inl ⟨t, hmem⟩
      · rcases hmem with h | h | h
        · exact Or.inl ⟨t, h⟩
        · exact Or.inr (Or.inl ⟨_, h⟩)
        · exact Or.inr (Or.inr h)
      · rcases hmem with h | h
        · exact Or.inl ⟨t, h⟩
        · exact Or.inr (Or.inl ⟨_, h⟩)

theorem ns_note_fresh (lower : String → String) (order : List (String × String))
    (res : ResolutionResult) :
    "NS records present but SOA missing (Anomalous)" ∉
      (Analyze lower order (withoutNsSoa res)).Notes := by
  intro hmem
  have hn : (withoutNsSoa res).Records.lookup "NS" = none := by
    unfold withoutNsSoa
    rw [lookup_withoutNsSoa]
    rfl
  have hhead : ("NS records present but SOA missing (Anomalous)".data).head? = some 'N' := rfl
  rcases analyze_notes_without_ns lower order (withoutNsSoa res) hn _ hmem with
    ⟨t, h⟩ | ⟨q, h⟩ | h
  · rw [h, String.data_append] at hhead
    have hc : ("CNAME target: ".data ++ t.data).head? = some 'C' := rfl
    rw [hc] at hhead
    exact absurd hhead (by decide)
  · rw [h, String.data_append] at hhead
    have hc : ("SaaS Provider: ".data ++ q.data).head? = some 'S' := rfl
    rw [hc] at hhead
    exact absurd hhead (by decide)
  · exact absurd h (by decide)

/-- Claim C13 fails as stated: for a result with NS values and an NXDOMAIN
SOA record the note appended is `NS records present but SOA missing
(Anomalous)`; the note `NS records present but SOA missing` is not among the
notes. -/
theorem analyze_ns_note_counterexample :
    (getRecord lameRes.Records "NS").Values ≠ [] ∧
    (getRecord lameRes.Records "SOA").Status = "NXDOMAIN" ∧
    (Analyze asciiLower providers lameRes).Notes =
      ["NS records present but SOA missing (Anomalous)"] ∧
    "NS records present but SOA missing" ∉ (Analyze asciiLower providers lameRes).Notes := by
  decide

/-- Claim C13, amended. When the NS record has at least one value and the
SOA record has status NXDOMAIN, `Analyze` appends the note
`NS records present but SOA missing (Anomalous)` as the last note, and
otherwise the notes hold no such note; in either case the notes before it and
the fields `IsDangling`, `DanglingCNAME`, `CloudProvider` and `RiskLevel` are
those of the analysis of the same result with the NS and SOA entries
removed. -/
theorem analyze_ns_note (lower : String → String) (order : List (String × String))
    (res : ResolutionResult) :
    (((getRecord res.Records "NS").Values ≠ [] ∧
        (getRecord res.Records "SOA").Status = "NXDOMAIN") →
      (Analyze lower order res).Notes =
        (Analyze lower order (withoutNsSoa res)).Notes ++
          ["NS records present but SOA missing (Anomalous)"]) ∧
    (¬((getRecord res.Records "NS").Values ≠ [] ∧
        (getRecord res.Records "SOA").Status = "NXDOMAIN") →
      (Analyze lower order res).Notes = (Analyze lower order (withoutNsSoa res)).Notes) ∧
    ("NS records present but SOA missing (Anomalous)" ∈ (Analyze lower order res).Notes ↔
      ((getRecord res.Records "NS").Values ≠ [] ∧
        (getRecord res.Records "SOA").Status = "NXDOMAIN")) ∧
    (Analyze lower order res).IsDangling = (Analyze lower order (withoutNsSoa res)).IsDangling ∧
    (Analyze lower order res).DanglingCNAME =
      (Analyze lower order (withoutNsSoa res)).DanglingCNAME ∧
    (Analyze lower order res).CloudProvider =
      (Analyze lower order (withoutNsSoa res)).CloudProvider ∧
    (Analyze lower order res).RiskLevel = (Analyze lower order (withoutNsSoa res)).RiskLevel := by
  have hframe := analyze_ns_frame lower order res
  have hfresh := ns_note_fresh lower order res
  by_cases hc : (getRecord res.Records "NS").Values ≠ [] ∧
      (getRecord res.Records "SOA").Status = "NXDOMAIN"
  · rw [if_pos hc] at hframe
    rw [hframe]
    refine ⟨fun _ => rfl, fun h => absurd hc h, ?_, rfl, rfl, rfl, rfl⟩
    simp [hc]
  · rw [if_neg hc] at hframe
    rw [hframe]
    refine ⟨fun h => absurd h hc, fun _ => rfl, ?_, rfl, rfl, rfl, rfl⟩
    constructor
    · intro h
      exact absurd h hfresh
    · intro h
      exact absurd h hc

theorem analyze_ns_note_witness :
    ((getRecord lameRes.Records "NS").Values ≠ [] ∧
      (getRecord lameRes.Records "SOA").Status = "NXDOMAIN") ∧
    (Analyze asciiLower providers lameRes).Notes =
      (Analyze asciiLower providers (withoutNsSoa lameRes)).Notes ++
        ["NS records present but SOA missing (Anomalous)"] :=
  ⟨by decide, (analyze_ns_note asciiLower providers lameRes).1 (by decide)⟩

theorem providers_keys_no_dot :
    ∀ e ∈ providers, e.1.data ≠ [] ∧ e.1.data.getLast? ≠ some '.' := by
  decide

theorem hasSuffix_after_dot (init : List Char) (key : String)
    (h0 : key.data ≠ []) (h1 : key.data.getLast? ≠ some '.') :
    HasSuffix (String.mk (init ++ ['.'])) key = false := by
  cases hb : HasSuffix (String.mk (init ++ ['.'])) key with
  | false => rfl
  | true =>
    exfalso
    obtain ⟨t, ht⟩ := (hasSuffix_iff _ _).mp hb
    have hlast : (t ++ key.data).getLast? = some '.' := by
      rw [ht]
      simp
    rw [List.getLast?_append] at hlast
    cases hk : key.data.getLast? with
    | none =>
      rw [List.getLast?_eq_none_iff] at hk
      exact h0 hk
    | some c =>
      rw [hk] at hlast h1
      simp only [Option.or_some] at hlast
      exact h1 hlast

/-- Claim C14 fails on the code: a target with the trailing root dot, the
form in which the resolution client stores CNAME targets, matches no key of
the provider table, so `shops.myshopify.com.` gets no provider while
`shops.myshopify.com` gets Shopify. -/
theorem detectProvider_trailing_dot :
    detectProvider asciiLower providers "shops.myshopify.com" = "Shopify" ∧
    detectProvider asciiLower providers "shops.myshopify.com." = "" ∧
    (Analyze asciiLower providers fqdnShopRes).CloudProvider = "" ∧
    (∀ t : String, detectProvider asciiLower providers (t ++ ".") = "") := by
  refine ⟨by decide, by decide, by decide, ?_⟩
  intro t
  unfold detectProvider
  apply detectLoop_of_no_match
  intro e he
  have hdata : asciiLower (t ++ ".") = String.mk (t.data.map Char.toLower ++ ['.']) := by
    unfold asciiLower
    rw [String.data_append, List.map_append]
    rfl
  rw [hdata]
  exact hasSuffix_after_dot _ e.1 (providers_keys_no_dot e he).1 (providers_keys_no_dot e he).2

/-! ## Theorems: domain-level failures -/

/-- A resolver error skips the domain: `processDomain` writes the diagnostic
and emits nothing. -/
theorem processDomain_of_error (lower : String → String) (order : List (String × String))
    (client : Resolver) (n : Nat) (domain : String) (res : Option ResolutionResult)
    (err : String) (h : client domain = (res, some err)) :
    processDomain lower order client n domain =
      .skipped ("[!] Error resolving " ++ domain ++ ": " ++ err ++ "\n") := by
  unfold processDomain
  rw [h]

theorem query_conversion_failure {σ : Type} (net : Net σ) (c : Client) (domain : String)
    (qtype : Nat) (s : σ) (e : String) (hconv : net.toASCII domain = .error e) :
    (Query net c domain qtype s).err = some e ∧ (Query net c domain qtype s).attempts = [] ∧
    (Query net c domain qtype s).state = s := by
  unfold Query
  rw [hconv]
  exact ⟨rfl, rfl, rfl⟩

theorem recordsLoop_conversion_failure {σ : Type} (net : Net σ) (c : Client) (domain : String)
    (e : String) (hconv : net.toASCII domain = .error e) (s : σ) (hctx : net.ctxErr s = none) :
    ∀ (ts : List Nat) (result : ResolutionResult) (done : List Attempt),
      ∃ res, (recordsLoop net c domain ts result done s).outcome = .result res ∧
        (recordsLoop net c domain ts result done s).attempts = done ∧
        (recordsLoop net c domain ts result done s).state = s ∧
        res.Domain = result.Domain ∧
        (∀ t ∈ ts, res.Records.lookup (TypeToString t) =
          some { Typ := TypeToString t, Status := "ERROR", Error := e }) ∧
        (∀ k, k ∉ ts.map TypeToString → res.Records.lookup k = result.Records.lookup k) := by
  intro ts
  induction ts with
  | nil =>
    intro result done
    exact ⟨result, rfl, rfl, rfl, rfl, by simp, fun _ _ => rfl⟩
  | cons t rest ih =>
    intro result done
    obtain ⟨he, hat, hst⟩ := query_conversion_failure net c domain t s e hconv
    have hrec := recordOf_error net (TypeToString t) (Query net c domain t s) e he
    obtain ⟨res, hout, hatt, hstate, hdom, hin, hother⟩ :=
      ih { result with Records := (setRecord result.Records (TypeToString t)
            { Typ := TypeToString t, Status := "ERROR", Error := e }) } done
    have hstep : recordsLoop net c domain (t :: rest) result done s =
        recordsLoop net c domain rest
          { result with Records := (setRecord result.Records (TypeToString t)
              { Typ := TypeToString t, Status := "ERROR", Error := e }) } done s := by
      rw [recordsLoop]
      simp only [hctx, hrec, hat, hst, List.append_nil]
    rw [hstep]
    refine ⟨res, hout, hatt, hstate, hdom, ?_, ?_⟩
    · intro t1 ht1
      by_cases hmem : t1 ∈ rest
      · exact hin t1 hmem
      · have ht : t1 = t := by
          rcases List.mem_cons.mp ht1 with h | h
          · exact h
          · exact absurd h hmem
        subst ht
        by_cases hk : TypeToString t1 ∈ rest.map TypeToString
        · obtain ⟨t2, ht2, heq⟩ := List.mem_map.mp hk
          rw [← heq]
          exact hin t2 ht2
        · rw [hother _ hk, lookup_setRecord, if_pos rfl]
    · intro k hk
      simp only [List.map_cons, List.mem_cons, not_or] at hk
      rw [hother k hk.2, lookup_setRecord, if_neg hk.1]

theorem filterMap_skip {α : Type} (f : String → Option α) (l : List String) (d0 : String)
    (h : f d0 = none) : l.filterMap f = (l.filter (fun d => d ≠ d0)).filterMap f := by
  induction l with
  | nil => rfl
  | cons d rest ih =>
    by_cases hd : d = d0
    · subst hd
      rw [List.filterMap_cons_none h, List.filter_cons_of_neg (by simp)]
      exact ih
    · rw [List.filter_cons_of_pos (by simpa using hd), List.filterMap_cons, List.filterMap_cons,
        ih]

/-- Claim C11 fails as stated: over a transport whose name conversion rejects
the name, `GetRecords` returns a result, with an ERROR entry for every record
type and no domain-level error, and `processDomain` puts an outcome for the
name on the result stream. -/
theorem getRecords_conversion_counterexample :
    badNameNet.toASCII "xn--é.example" = .error "idna: invalid label" ∧
    (GetRecords badNameNet runClient "xn--é.example" 0).outcome = .result badNameRes ∧
    emittedResult asciiLower (fun _ => providers) (clientResolver badNameNet runClient 0)
        (fun _ => 7) "xn--é.example" =
      some { Resolution := badNameRes, Analysis := Analyze asciiLower providers badNameRes } := by
  refine ⟨rfl, by decide, by decide⟩

/-- Claim C11, amended. A failed conversion of the name to ASCII form is not a
domain-level error: `Query` then makes no exchange attempt and returns the
conversion error, and `GetRecords`, its context not cancelled, records for
every queried type an entry with status ERROR and the conversion error text
and returns the result, for which `processDomain` puts an outcome on the
result stream. When the resolver does report a domain-level error,
`processDomain` puts no outcome for the domain on the result stream, only the
diagnostic, and the results of the run are those of the remaining names. -/
theorem getRecords_conversion_failure {σ : Type} (net : Net σ) (c : Client) (domain : String)
    (s : σ) (e : String) (lower : String → String) (order : List (String × String)) (n : Nat)
    (hconv : net.toASCII domain = .error e) (hctx : net.ctxErr s = none) :
    (∀ (qtype : Nat) (s0 : σ),
      (Query net c domain qtype s0).msg = none ∧
      (Query net c domain qtype s0).err = some e ∧
      (Query net c domain qtype s0).attempts = []) ∧
    (∃ res, (GetRecords net c domain s).outcome = .result res ∧
      (GetRecords net c domain s).attempts = [] ∧
      ∀ t ∈ types, res.Records.lookup (TypeToString t) =
        some { Typ := TypeToString t, Status := "ERROR", Error := e }) ∧
    (∃ r, processDomain lower order (clientResolver net c s) n domain = .emitted r ∧
      r.Resolution.Domain = domain) ∧
    (∀ (client : Resolver) (d : String) (res : Option ResolutionResult) (err : String),
      client d = (res, some err) →
      processDomain lower order client n d =
        .skipped ("[!] Error resolving " ++ d ++ ": " ++ err ++ "\n")) ∧
    (∀ (client : Resolver) (od : String → List (String × String)) (rnd : String → Nat)
      (lines : List String) (d0 : String),
      emittedResult lower od client rnd d0 = none →
      emittedResults lower od client rnd lines =
        ((workQueue lines).filter (fun d => d ≠ d0)).filterMap
          (emittedResult lower od client rnd)) := by
  obtain ⟨res, hout, hatt, _, hdom, hin, _⟩ :=
    recordsLoop_conversion_failure net c domain e hconv s hctx types
      { Domain := domain, Records := [] } []
  refine ⟨?_, ⟨res, hout, hatt, hin⟩, ?_, ?_, ?_⟩
  · intro qtype s0
    obtain ⟨he, hat, _⟩ := query_conversion_failure net c domain qtype s0 e hconv
    refine ⟨?_, he, hat⟩
    unfold Query
    rw [hconv]
  · have hres : clientResolver net c s domain = (some res, none) := by
      unfold clientResolver
      have hout2 : (GetRecords net c domain s).outcome = .result res := hout
      rw [hout2]
    refine ⟨_, processDomain_of_answer lower order _ n domain res hres, ?_⟩
    exact hdom
  · intro client d res err h
    exact processDomain_of_error lower order client n d res err h
  · intro client od rnd lines d0 h
    unfold emittedResults
    exact filterMap_skip _ _ d0 h

theorem getRecords_conversion_failure_witness :
    badNameNet.toASCII "xn--é.example" = .error "idna: invalid label" ∧
    badNameNet.ctxErr 0 = none ∧
    ∃ r, processDomain asciiLower providers (clientResolver badNameNet runClient 0) 7
        "xn--é.example" = .emitted r ∧
      r.Resolution.Domain = "xn--é.example" :=
  ⟨rfl, rfl,
    (getRecords_conversion_failure badNameNet runClient "xn--é.example" 0 "idna: invalid label"
      asciiLower providers 7 rfl rfl).2.2.1⟩

theorem recordsLoop_cancelled {σ : Type} (net : Net σ) (c : Client) (domain : String)
    (hr : 0 ≤ c.Retries) (e : String) (t : Nat) (post : List Nat) :
    ∀ (pre : List Nat) (result : ResolutionResult) (done : List Attempt) (s : σ),
      (∀ p1 t1 p2, pre = p1 ++ t1 :: p2 → net.ctxErr (stateAfter net c domain p1 s) = none) →
      net.ctxErr (stateAfter net c domain pre s) = some e →
      (recordsLoop net c domain (pre ++ t :: post) result done s).outcome = .error e ∧
      (recordsLoop net c domain (pre ++ t :: post) result done s).attempts =
        done ++ attemptsBefore net c domain pre s ∧
      (recordsLoop net c domain (pre ++ t :: post) result done s).state =
        stateAfter net c domain pre s := by
  intro pre
  induction pre with
  | nil =>
    intro result done s _ hcancel
    have h0 : net.ctxErr s = some e := hcancel
    rw [List.nil_append, recordsLoop]
    simp [h0, attemptsBefore, stateAfter]
  | cons t0 pre1 ih =>
    intro result done s hlive hcancel
    have h0 : net.ctxErr s = none := hlive [] t0 pre1 rfl
    obtain ⟨recRes, hrec⟩ := Option.isSome_iff_exists.mp
      (query_answers net c domain t0 s hr (TypeToString t0))
    have hlive1 : ∀ p1 t1 p2, pre1 = p1 ++ t1 :: p2 →
        net.ctxErr (stateAfter net c domain p1 (Query net c domain t0 s).state) = none := by
      intro p1 t1 p2 h
      exact hlive (t0 :: p1) t1 p2 (by rw [h]; rfl)
    obtain ⟨h1, h2, h3⟩ :=
      ih { result with Records := setRecord result.Records (TypeToString t0) recRes }
        (done ++ (Query net c domain t0 s).attempts) (Query net c domain t0 s).state
        hlive1 hcancel
    have hstep : recordsLoop net c domain (t0 :: pre1 ++ t :: post) result done s =
        recordsLoop net c domain (pre1 ++ t :: post)
          { result with Records := setRecord result.Records (TypeToString t0) recRes }
          (done ++ (Query net c domain t0 s).attempts) (Query net c domain t0 s).state := by
      rw [List.cons_append, recordsLoop]
      simp only [h0, hrec]
    rw [hstep]
    refine ⟨h1, ?_, h3⟩
    rw [h2, List.append_assoc]
    rfl

/-- Claim C12 fails as stated. Over `cancelNet` the context is cancelled
during the first exchange, yet `GetRecords` makes two more attempts for the
query under way before it returns the cancellation error. Over
`lateCancelNet` the context is cancelled during the query of the last record
type, and `GetRecords` returns a result and no error. -/
theorem getRecords_cancel_counterexample :
    (cancelNet.ctxErr 0 = none ∧
      cancelNet.ctxErr (cancelNet.exchange 0 "example.com" TypeA runClient.ResolverAddr).2 =
        some "context canceled" ∧
      (GetRecords cancelNet runClient "example.com" 0).attempts =
        [.failed "i/o timeout", .failed "context canceled", .failed "context canceled"] ∧
      (GetRecords cancelNet runClient "example.com" 0).outcome = .error "context canceled") ∧
    (lateCancelNet.ctxErr (GetRecords lateCancelNet runClient "example.com" 0).state =
        some "context deadline exceeded" ∧
      (GetRecords lateCancelNet runClient "example.com" 0).outcome.isResult = true) := by
  decide

/-- Claim C12, amended. Called with a context that is already cancelled,
`GetRecords` makes no exchange attempt and returns the cancellation error.
When the context is found cancelled as a record type comes up, `GetRecords`
makes no attempt for that type or a later one (its attempts are those of the
queries of the earlier types, each run to its end, retries included) and
returns the cancellation error with no result, on which `processDomain` emits
nothing for the domain. -/
theorem getRecords_cancelled {σ : Type} (net : Net σ) (c : Client) (domain : String) (s : σ) :
    (∀ e, net.ctxErr s = some e →
      (GetRecords net c domain s).outcome = .error e ∧
      (GetRecords net c domain s).attempts = [] ∧
      (GetRecords net c domain s).state = s) ∧
    (0 ≤ c.Retries → ∀ pre t post e, types = pre ++ t :: post →
      (∀ p1 t1 p2, pre = p1 ++ t1 :: p2 →
        net.ctxErr (stateAfter net c domain p1 s) = none) →
      net.ctxErr (stateAfter net c domain pre s) = some e →
      (GetRecords net c domain s).outcome = .error e ∧
      (GetRecords net c domain s).attempts = attemptsBefore net c domain pre s ∧
      (GetRecords net c domain s).state = stateAfter net c domain pre s) ∧
    (∀ (lower : String → String) (order : List (String × String)) (n : Nat) (e : String),
      (GetRecords net c domain s).outcome = .error e →
      processDomain lower order (clientResolver net c s) n domain =
        .skipped ("[!] Error resolving " ++ domain ++ ": " ++ e ++ "\n")) := by
  refine ⟨?_, ?_, ?_⟩
  · intro e he
    unfold GetRecords
    have htypes : types = TypeA :: [TypeAAAA, TypeCNAME, TypeNS, TypeMX, TypeTXT, TypeSOA,
        TypeSRV, TypeCAA] := rfl
    rw [htypes, recordsLoop]
    simp [he]
  · intro hr pre t post e hsplit hlive hcancel
    unfold GetRecords
    rw [hsplit]
    obtain ⟨h1, h2, h3⟩ := recordsLoop_cancelled net c domain hr e t post pre
      { Domain := domain, Records := [] } [] s hlive hcancel
    exact ⟨h1, by rw [h2, List.nil_append], h3⟩
  · intro lower order n e hout
    apply processDomain_of_error lower order _ n domain none e
    unfold clientResolver
    rw [hout]

theorem getRecords_cancelled_witness :
    (cancelNet.ctxErr 1 = some "context canceled" ∧
      (GetRecords cancelNet runClient "example.com" 1).outcome = .error "context canceled" ∧
      (GetRecords cancelNet runClient "example.com" 1).attempts = [] ∧
      (GetRecords cancelNet runClient "example.com" 1).state = 1) ∧
    (0 ≤ runClient.Retries ∧ cancelNet.ctxErr 0 = none ∧
      cancelNet.ctxErr (stateAfter cancelNet runClient "example.com" [TypeA] 0) =
        some "context canceled" ∧
      (GetRecords cancelNet runClient "example.com" 0).outcome = .error "context canceled" ∧
      (GetRecords cancelNet runClient "example.com" 0).attempts =
        attemptsBefore cancelNet runClient "example.com" [TypeA] 0 ∧
      (GetRecords cancelNet runClient "example.com" 0).state =
        stateAfter cancelNet runClient "example.com" [TypeA] 0) :=
  ⟨⟨rfl, (getRecords_cancelled cancelNet runClient "example.com" 1).1 "context canceled" rfl⟩,
    by decide, rfl, rfl,
    (getRecords_cancelled cancelNet runClient "example.com" 0).2.1 (by decide) [TypeA] TypeAAAA
      [TypeCNAME, TypeNS, TypeMX, TypeTXT, TypeSOA, TypeSRV, TypeCAA] "context canceled" rfl
      (by
        intro p1 t1 p2 h
        cases p1 with
        | nil => rfl
        | cons a p => simp at h)
      rfl⟩

end Superdns
